import Mathlib

/-!
Verification development for the Tunnel v1 deterministic analysis pipeline
(`backend/v1`): canonical parsing helpers, transfer matching, entity
resolution, classification, metrics, confidence scoring, pipeline
orchestration and snapshot hashing.

Modelling conventions, used consistently below:

* Python `int` is modelled by `Int` (or `Nat` where the source value is a
  sum of absolute values).  Python floor division `//`, and `floor(a / b)`
  on non-negative ints, are modelled by `Int` division (`Int.ediv`, the
  `/` of `Int`), which agrees with mathematical floor division for the
  positive divisors used by the source.
* Python strings are compared by Unicode code point; we model string order
  with an explicit lexicographic order on the character list (`strLe`),
  which is the same relation and, unlike `String.le`, is kernel-computable.
* Python `sorted` is a stable sort; we model it with `List.insertionSort`,
  which is also stable and kernel-computable.
* SHA-256 content hashes (`canonical_hash`, `compute_txn_id`,
  `build_entities`' entity ids) are modelled by the exact canonical
  content that the source serializes and hashes: `json.dumps` with sorted
  keys is injective on the hashed structures, and SHA-256 is treated as
  collision-free, so two hashes are equal exactly when the canonical
  contents are equal.  `canonical_hash` therefore returns its canonical
  (sorted) input, and `compute_txn_id` returns the `|`-joined basis
  string that the source hashes.
* ISO `YYYY-MM-DD` date strings are modelled by a `Date` record; the
  source's string comparisons on ISO dates coincide with lexicographic
  comparison of `(year, month, day)`, which is `dateLe` below.
-/

/-- Lexicographic order on character lists by Unicode code point, the
order Python uses for `str` comparison (restricted to the code-point
sequences that make up the strings of this development). -/
def charsLe : List Char → List Char → Bool
  | [], _ => true
  | _ :: _, [] => false
  | a :: as, b :: bs =>
    if a.val.toNat = b.val.toNat then charsLe as bs
    else decide (a.val.toNat < b.val.toNat)

/-- String order by code point (Python `str` `<=`). -/
def strLe (a b : String) : Bool := charsLe a.toList b.toList

/-- Does `pre` occur at the head of `l`? (helper for substring search). -/
def startsWithChars : List Char → List Char → Bool
  | [], _ => true
  | _ :: _, [] => false
  | a :: as, b :: bs => (decide (a = b)) && startsWithChars as bs

/-- Does `needle` occur as a contiguous substring of `hay`?  Models the
Python `needle in hay` test on strings. -/
def charsContains (needle : List Char) : List Char → Bool
  | [] => needle.isEmpty
  | c :: rest => startsWithChars needle (c :: rest) || charsContains needle rest

/-- Python `kw in d` substring containment. -/
def strContains (hay needle : String) : Bool := charsContains needle.toList hay.toList

/-- ASCII lower-casing of a string, modelling Python `str.lower()` on the
descriptor alphabet used by the source (`Char.toLower` agrees with Python
on ASCII letters). -/
def strLower (s : String) : String := String.mk (s.toList.map Char.toLower)

/-- Is `c` one of the whitespace characters Python `str.split()` (no
arguments) splits on, restricted to the ASCII whitespace of this data. -/
def isPyWhitespace (c : Char) : Bool :=
  c.val.toNat = 32 || c.val.toNat = 9 || c.val.toNat = 10 ||
  c.val.toNat = 13 || c.val.toNat = 11 || c.val.toNat = 12

/-- Split a character list into maximal runs of non-whitespace characters,
dropping all whitespace: the behaviour of Python `str.split()` with no
arguments.  `cur` is the (reversed) run being accumulated. -/
def splitWsAux : List Char → List Char → List (List Char)
  | cur, [] => if cur.isEmpty then [] else [cur.reverse]
  | cur, c :: rest =>
    if isPyWhitespace c then
      if cur.isEmpty then splitWsAux [] rest
      else cur.reverse :: splitWsAux [] rest
    else splitWsAux (c :: cur) rest

/-- Python `str.split()` with no arguments. -/
def splitWs (s : String) : List (List Char) := splitWsAux [] s.toList

/-- Models `parsing/common.py` `normalize_descriptor`:
`" ".join(str(value or "").strip().lower().split())`.  The `strip()` is
absorbed by `split()`, which already discards leading and trailing
whitespace. -/
def normalize_descriptor (value : String) : String :=
  String.mk (List.intercalate [' '] (splitWs (strLower value)))

/-- A calendar date, modelling both Python `datetime.date` values and the
canonical ISO `YYYY-MM-DD` strings of the source (the source's string
comparisons on ISO dates coincide with `dateLe`). -/
structure Date where
  year : Nat
  month : Nat
  day : Nat
deriving DecidableEq, Repr

/-- Lexicographic date order: the order of both `datetime.date` and ISO
date strings. -/
def dateLe (a b : Date) : Bool :=
  if a.year = b.year then
    if a.month = b.month then decide (a.day ≤ b.day)
    else decide (a.month < b.month)
  else decide (a.year < b.year)

def dateMin (a b : Date) : Date := if dateLe a b then a else b

def dateMax (a b : Date) : Date := if dateLe a b then b else a

/-- Leap-year rule, as written inline in `metrics_engine.py` `_add_months`. -/
def isLeap (y : Nat) : Bool := y % 4 = 0 && (y % 100 ≠ 0 || y % 400 = 0)

/-- Month lengths `[31, 29-or-28, 31, 30, ...]` from `_add_months`. -/
def daysInMonth (y m : Nat) : Nat :=
  match m with
  | 1 => 31 | 2 => if isLeap y then 29 else 28 | 3 => 31 | 4 => 30
  | 5 => 31 | 6 => 30 | 7 => 31 | 8 => 31 | 9 => 30 | 10 => 31
  | 11 => 30 | 12 => 31 | _ => 31

/-- Days since the civil epoch 1970-01-01 (proleptic Gregorian), the
standard days-from-civil algorithm; models `datetime.date` subtraction
(`(d1 - d2).days = toDays d1 - toDays d2`) for the valid dates produced
by the source's parsers. -/
def Date.toDays (dt : Date) : Int :=
  let y : Int := if dt.month ≤ 2 then (dt.year : Int) - 1 else (dt.year : Int)
  let era : Int := (if 0 ≤ y then y else y - 399) / 400
  let yoe : Int := y - era * 400
  let mp : Int := ((dt.month : Int) + 9) % 12
  let doy : Int := (153 * mp + 2) / 5 + (dt.day : Int) - 1
  let doe : Int := yoe * 365 + yoe / 4 - yoe / 100 + doy
  era * 146097 + doe - 719468

/-- Models `transfer_matcher.py` `_date_diff_days`: `abs((dt1 - dt2).days)`. -/
def date_diff_days (d1 d2 : Date) : Nat := (d1.toDays - d2.toDays).natAbs

/-- A canonical transaction row as produced by the v1 parsers and consumed
by the core pipeline (`RawTransaction` of the data model).  `id` is the
optional storage-layer row id (`row.get("id")`), distinct from the
deterministic `txn_id`.  `role` is absent (`none`) until the pipeline's
classification step sets it. -/
structure Tx where
  id : Option String
  deal_id : Option String
  txn_date : Date
  signed_amount_cents : Int
  raw_descriptor : String
  parsed_descriptor : String
  normalized_descriptor : String
  account_id : String
  txn_id : String
  is_transfer : Bool
  role : Option String
deriving DecidableEq, Repr

/-- Zero-pad the decimal rendering of `n` to width `w`. -/
def padNat (w : Nat) (n : Nat) : String :=
  let s := toString n
  String.mk (List.replicate (w - s.toList.length) '0') ++ s

/-- Render a date in the ISO `YYYY-MM-DD` form used throughout the source. -/
def isoDateStr (d : Date) : String :=
  padNat 4 d.year ++ "-" ++ padNat 2 d.month ++ "-" ++ padNat 2 d.day

/-- Models `parsing/common.py` `compute_txn_id`: SHA-256 of the `|`-joined basis
`document_id | account_id | txn_date | signed_amount_cents |
normalized_descriptor`, modelled by the basis string itself (see the
hash-modelling convention above). -/
def compute_txn_id (row : Tx) (document_id : String) : String :=
  String.intercalate "|"
    [document_id, row.account_id, isoDateStr row.txn_date,
     toString row.signed_amount_cents, row.normalized_descriptor]

/-- Models `parsing/common.py` `canonical_hash`: SHA-256 of the canonical JSON
serialization of `rows`, modelled by the canonical content itself (JSON
serialization with sorted keys is injective on these records and SHA-256
is treated as collision-free, so hash equality is content equality). -/
def canonical_hash {α : Type} (rows : List α) : List α := rows

/-- Models the `parsing/common.py` `sort_rows` sort key as a `Bool` relation:
lexicographic on `(txn_date, account_id, signed_amount_cents,
normalized_descriptor, txn_id)`. -/
def rowKeyLe (a b : Tx) : Bool :=
  if a.txn_date = b.txn_date then
    if a.account_id = b.account_id then
      if a.signed_amount_cents = b.signed_amount_cents then
        if a.normalized_descriptor = b.normalized_descriptor then
          strLe a.txn_id b.txn_id
        else strLe a.normalized_descriptor b.normalized_descriptor
      else decide (a.signed_amount_cents ≤ b.signed_amount_cents)
    else strLe a.account_id b.account_id
  else dateLe a.txn_date b.txn_date

/-- Models `parsing/common.py` `sort_rows`: stable sort of the rows by the
`(date, account, amount, normalized descriptor, txn_id)` tuple. -/
def sort_rows (rows : List Tx) : List Tx :=
  List.insertionSort (fun a b => rowKeyLe a b = true) rows

/-- A `TransferLink` row as built by `transfer_matcher.py` (`id` is left
`None` for the caller to set). -/
structure Link where
  id : Option String
  deal_id : Option String
  txn_out_id : Option String
  txn_in_id : Option String
  abs_amount_cents : Nat
  match_rule_version : String
deriving DecidableEq, Repr

/-- Candidate counter-transactions for a positive transaction `pos`:
negatives on a different account within 2 calendar days
(`transfer_matcher.py`, the `candidates` list comprehension). -/
def negCandidates (negatives : List Tx) (pos : Tx) : List Tx :=
  negatives.filter fun neg =>
    neg.account_id ≠ pos.account_id && date_diff_days neg.txn_date pos.txn_date ≤ 2

/-- Reverse candidates for a negative transaction `neg`: positives on a
different account within 2 calendar days (the `rev_candidates` list
comprehension). -/
def posCandidates (positives : List Tx) (neg : Tx) : List Tx :=
  positives.filter fun p =>
    p.account_id ≠ neg.account_id && date_diff_days p.txn_date neg.txn_date ≤ 2

/-- The matching decision for one positive transaction inside one
absolute-amount group: it pairs with `neg` exactly when `neg` is its
unique candidate and it is in turn `neg`'s unique reverse candidate.
The source's `rev_candidates[0] is pos` physical-identity test is
modelled by structural equality, which coincides with object identity
whenever no two distinct rows of the input are structurally equal (in
particular whenever `txn_id`s are pairwise distinct). -/
def matchOfGo2 (pos neg : Tx) : List Tx → Option Tx
  | [p] => if p = pos then some neg else none
  | _ => none

def matchOfGo (positives : List Tx) (pos : Tx) : List Tx → Option Tx
  | [neg] => matchOfGo2 pos neg (posCandidates positives neg)
  | _ => none

def matchOf (positives negatives : List Tx) (pos : Tx) : Option Tx :=
  matchOfGo positives pos (negCandidates negatives pos)

/-- All matched `(positive, negative)` pairs of one absolute-amount group,
in the order the source discovers them (positives in list order). -/
def groupPairs (group : List Tx) : List (Tx × Tx) :=
  let positives := group.filter fun t => 0 < t.signed_amount_cents
  let negatives := group.filter fun t => t.signed_amount_cents < 0
  positives.filterMap fun pos => (matchOf positives negatives pos).map fun neg => (pos, neg)

/-- The distinct absolute amounts of `l` in first-occurrence order: the
key order of the source's insertion-ordered `by_abs` dict. -/
def absKeys (l : List Tx) : List Nat :=
  l.foldl
    (fun ks t =>
      if ks.contains t.signed_amount_cents.natAbs then ks
      else ks ++ [t.signed_amount_cents.natAbs]) []

/-- The `by_abs[a]` group: all transactions of absolute amount `a`, in
list order. -/
def groupOf (l : List Tx) (a : Nat) : List Tx :=
  l.filter fun t => t.signed_amount_cents.natAbs = a

/-- All matched transfer pairs of the transaction list, grouped by
absolute amount exactly as the source's `by_abs` loop does. -/
def matchedPairs (l : List Tx) : List (Tx × Tx) :=
  (absKeys l).flatMap fun a => groupPairs (groupOf l a)

/-- The `TransferLink` record the source builds for a matched pair. -/
def mkLink (pos neg : Tx) : Link :=
  { id := none
    deal_id := pos.deal_id
    txn_out_id := neg.id
    txn_in_id := pos.id
    abs_amount_cents := pos.signed_amount_cents.natAbs
    match_rule_version := "v1_transfer_rule" }

/-- Models `transfer_matcher.py` `match_transfers`.  The source mutates
`is_transfer` in place on both members of each matched pair and returns
the same list; the candidate filters never read `is_transfer`, so the
in-place mutation is equivalent to rebuilding the list with the flag set
on every transaction that occurs in a matched pair. -/
def match_transfers (transactions : List Tx) : List Tx × List Link :=
  let pairs := matchedPairs transactions
  (transactions.map fun t =>
      if pairs.any (fun pr => pr.1 = t || pr.2 = t) then { t with is_transfer := true }
      else t,
   pairs.map fun pr => mkLink pr.1 pr.2)

/-- An `Entity` row as built by `core/entities.py` (`strong_identifiers`
is the constant empty dict and is omitted). -/
structure Entity where
  entity_id : String
  deal_id : String
  normalized_name : String
  display_name : String
deriving DecidableEq, Repr

/-- Entity id from `core/entities.py`:
`sha256(deal_id + "|" + normalized_name)`, modelled by the hashed basis
string (see the hash-modelling convention). -/
def entityIdOf (deal_id normalized_name : String) : String :=
  deal_id ++ "|" ++ normalized_name

/-- Python-dict association list with insert-or-overwrite assignment
(`d[k] = v`): an existing key keeps its position and gets the new value,
a new key is appended. -/
def dictSet {α : Type} (m : List (String × α)) (k : String) (v : α) : List (String × α) :=
  if m.any (fun p => p.1 = k) then
    m.map fun p => if p.1 = k then (k, v) else p
  else m ++ [(k, v)]

/-- Python `d.get(k, default)`. -/
def dictGetD {α : Type} (m : List (String × α)) (k : String) (d : α) : α :=
  match m.find? (fun p => p.1 = k) with
  | some p => p.2
  | none => d

/-- Python `d.get(k)` / `k in d`. -/
def dictGet {α : Type} (m : List (String × α)) (k : String) : Option α :=
  (m.find? (fun p => p.1 = k)).map (·.2)

/-- The display name chosen for a new entity:
`tx.get("parsed_descriptor") or tx.get("raw_descriptor") or
normalized_name` with Python falsy-string semantics. -/
def displayNameOf (tx : Tx) (normalized_name : String) : String :=
  if tx.parsed_descriptor ≠ "" then tx.parsed_descriptor
  else if tx.raw_descriptor ≠ "" then tx.raw_descriptor
  else normalized_name

/-- The first-occurrence branch of `build_entities`' loop, split on the
`name_to_entity` lookup: a known normalized name leaves the state
unchanged, a new one mints the entity id and appends the entity row. -/
def buildEntitiesStepGo (deal_id : String)
    (st : List (String × String) × List Entity × List (String × String)) (tx : Tx)
    (normalized_name : String) :
    Option String → List (String × String) × List Entity × List (String × String)
  | some _ => st
  | none =>
    let eid := entityIdOf deal_id normalized_name
    (dictSet st.1 normalized_name eid,
     st.2.1 ++ [({ entity_id := eid, deal_id := deal_id,
                   normalized_name := normalized_name,
                   display_name := displayNameOf tx normalized_name } : Entity)],
     st.2.2)

/-- One step of `build_entities`' loop over the transactions: state is
`(name_to_entity, entities, txn_entity_map)`. -/
def buildEntitiesStep (deal_id : String)
    (st : List (String × String) × List Entity × List (String × String)) (tx : Tx) :
    List (String × String) × List Entity × List (String × String) :=
  let normalized_name := normalize_descriptor tx.normalized_descriptor
  let st' := buildEntitiesStepGo deal_id st tx normalized_name (dictGet st.1 normalized_name)
  (st'.1, st'.2.1, dictSet st'.2.2 tx.txn_id (dictGetD st'.1 normalized_name ""))

/-- Models `core/entities.py` `build_entities`: derives entities from
normalized descriptors and returns `(entities sorted by entity_id,
txn_entity_map, entities_hash)`. -/
def build_entities (deal_id : String) (transactions : List Tx) :
    List Entity × List (String × String) × List Entity :=
  let st := transactions.foldl (buildEntitiesStep deal_id) ([], [], [])
  let entities_sorted :=
    List.insertionSort (fun a b : Entity => strLe a.entity_id b.entity_id = true) st.2.1
  (entities_sorted, st.2.2, canonical_hash entities_sorted)

/-- Keyword groups of `core/classifier.py`.  The source iterates Python
`frozenset`s, whose iteration order is arbitrary; every keyword of a
group maps to the same role, so the result is order-independent and the
groups are modelled as lists in source order. -/
def revenueOpKeywords : List String := ["sale", "pos", "mpesa", "payment", "client", "receipt"]

def loanKeywords : List String := ["loan", "facility", "credit", "disbursement"]

def capitalKeywords : List String := ["capital", "director", "owner", "shareholder", "investment", "equity"]

def refundKeywords : List String := ["reversal", "refund", "chargeback"]

def payrollKeywords : List String := ["salary", "payroll", "wages", "staff"]

def taxKeywords : List String := ["tax", "kra", "vat", "paye"]

/-- Does some keyword of the group occur in the descriptor (`kw in d`)? -/
def anyKeyword (kws : List String) (d : String) : Bool :=
  kws.any fun kw => strContains d kw

/-- Models `core/classifier.py` `_keyword_classify`: ordered keyword
groups over the lower-cased descriptor, loan/capital/refund groups
splitting on the sign of the amount. -/
def keywordClassify (descriptor : String) (amount_cents : Int) : Option String :=
  let d := strLower descriptor
  if anyKeyword loanKeywords d then
    some (if 0 < amount_cents then "revenue_non_operational" else "supplier")
  else if anyKeyword capitalKeywords d then
    some (if 0 < amount_cents then "revenue_non_operational" else "supplier")
  else if anyKeyword refundKeywords d then
    some (if 0 < amount_cents then "revenue_non_operational" else "supplier")
  else if anyKeyword revenueOpKeywords d then some "revenue_operational"
  else if anyKeyword payrollKeywords d then some "payroll"
  else if anyKeyword taxKeywords d then some "supplier"
  else none

/-- Models `core/classifier.py` `classify`: transfers short-circuit, then
keywords on the normalized descriptor, then sign fallback (zero falls
through to `other`). -/
def classify (txn : Tx) : String :=
  if txn.is_transfer then "transfer"
  else
    match keywordClassify txn.normalized_descriptor txn.signed_amount_cents with
    | some role => role
    | none =>
      if 0 < txn.signed_amount_cents then "revenue_operational"
      else if txn.signed_amount_cents < 0 then "supplier"
      else "other"

/-- Models `metrics_engine.py` `_add_months`: add `months` months,
clamping the day to the target month's length. -/
def addMonths (dt : Date) (months : Nat) : Date :=
  let year := dt.year + (dt.month + months - 1) / 12
  let month := (dt.month + months - 1) % 12 + 1
  { year := year, month := month, day := min dt.day (daysInMonth year month) }

/-- Month index `year * 12 + month`: `cur.replace(day=1) < end.replace(day=1)`
on first-of-month dates is exactly `monthIndex cur < monthIndex endD`. -/
def monthIndex (d : Date) : Nat := d.year * 12 + d.month

/-- The `while` loop of `_missing_months`, counting the months strictly
before `endD`'s month starting from `cur`.  The loop runs exactly
`monthIndex endD - monthIndex cur` times (each `_add_months cur 1`
increases `monthIndex` by one), so and the explicit `fuel`, set to
`monthIndex endD` at the call site, never runs out. -/
def missingMonthsLoop : Nat → Date → Date → Nat
  | 0, _, _ => 0
  | fuel + 1, cur, endD =>
    if monthIndex cur < monthIndex endD then
      missingMonthsLoop fuel (addMonths cur 1) endD + 1
    else 0

/-- Models `metrics_engine.py` `_missing_months`: sort the dates, then
count the month starts strictly between the first date's month and the
last date's month.  Both branches of the source's `if cur == start`
advance `cur` by one month, so the conditional is collapsed.  Note the
source counts every interior month, whether or not it contains a
transaction. -/
def missing_months (txn_dates : List Date) : Nat :=
  match List.insertionSort (fun a b => dateLe a b = true) txn_dates with
  | [] => 0
  | d :: rest =>
    let start := d
    let endD := (d :: rest).getLast (by simp)
    let cur := addMonths { start with day := 1 } 1
    missingMonthsLoop (monthIndex endD) cur endD

/-- Models `metrics_engine.py` `_active_period_dates`: `(min(dates),
max(dates))` of all transaction dates, or `(None, None)` when empty. -/
def activePeriodDates (transactions : List Tx) : Option (Date × Date) :=
  match transactions.map (fun t => t.txn_date) with
  | [] => none
  | d :: ds => some (ds.foldl dateMin d, ds.foldl dateMax d)

/-- The accrual reference passed to `compute_metrics` (`None` fields model
absent / falsy values). -/
structure Accrual where
  accrual_revenue_cents : Option Int
  accrual_period_start : Option Date
  accrual_period_end : Option Date
deriving DecidableEq, Repr

/-- The metrics dict returned by `compute_metrics`.  The zero-total branch
of the source carries one extra key (`coverage_bp_raw`) that no caller
reads; it is omitted. -/
structure Metrics where
  non_transfer_abs_total_cents : Nat
  classified_abs_total_cents : Nat
  coverage_bp : Nat
  missing_month_count : Nat
  missing_month_penalty_bp : Nat
  reconciliation_status : String
  reconciliation_bp : Option Int
  base_confidence_bp : Int
  base_after_months_bp : Int
  bank_operational_inflow_cents : Int
deriving DecidableEq, Repr

/-- Sum of `abs(signed_amount_cents)` over non-transfer transactions. -/
def nonTransferAbsTotal (transactions : List Tx) : Nat :=
  ((transactions.filter fun t => !t.is_transfer).map
    fun t => t.signed_amount_cents.natAbs).sum

/-- Sum of `abs(signed_amount_cents)` over non-transfer transactions whose
role is not `"other"` (a missing role also counts, as in the source's
`t.get("role") != "other"`). -/
def classifiedAbsTotal (transactions : List Tx) : Nat :=
  ((transactions.filter fun t => !t.is_transfer && t.role ≠ some "other").map
    fun t => t.signed_amount_cents.natAbs).sum

/-- Sum of the positive `revenue_operational` amounts over non-transfer
transactions. -/
def bankOperationalInflow (transactions : List Tx) : Int :=
  ((transactions.filter fun t =>
      !t.is_transfer && 0 < t.signed_amount_cents && t.role = some "revenue_operational").map
    fun t => t.signed_amount_cents).sum

/-- The reconciliation part of `compute_metrics`: returns
`(reconciliation_status, reconciliation_bp)`. -/
def reconciliation (transactions : List Tx) (accrual : Accrual)
    (bank_operational_inflow_cents : Int) : String × Option Int :=
  match accrual.accrual_revenue_cents, accrual.accrual_period_start, accrual.accrual_period_end with
  | some acc_rev, some accr_start, some accr_end =>
    if 0 < acc_rev then
      match activePeriodDates transactions with
      | none => ("NOT_RUN", none)
      | some (active_start, active_end) =>
        let overlap_days : Int :=
          max 0 ((min active_end.toDays accr_end.toDays) -
                 (max active_start.toDays accr_start.toDays) + 1)
        let accrual_days : Int := accr_end.toDays - accr_start.toDays + 1
        if accrual_days ≤ 0 then ("FAILED_OVERLAP", none)
        else
          let overlap_bp := overlap_days * 10000 / accrual_days
          if overlap_bp < 6000 then ("FAILED_OVERLAP", none)
          else if bank_operational_inflow_cents ≤ 0 then ("NOT_RUN", none)
          else
            let diff : Int := |acc_rev - bank_operational_inflow_cents|
            ("OK", some (max 0 (10000 - diff * 10000 / acc_rev)))
    else ("NOT_RUN", none)
  | _, _, _ => ("NOT_RUN", none)

/-- Floor of the base-2 logarithm, by explicit fuel; each step halves the
argument, so a fuel of 1100 is exact for every value below 2^1100,
comfortably past the binary64 exponent range. -/
def log2floorFuel : Nat → Nat → Nat
  | 0, _ => 0
  | fuel + 1, n => if 2 ≤ n then log2floorFuel fuel (n / 2) + 1 else 0

/-- Models CPython float true division of two nonnegative ints followed
by `math.floor`, as in the source's `floor(classified_abs_total * 10000 /
non_transfer_abs_total)`: the exact quotient `a/b` is rounded to the
nearest binary64 value (53-bit significand, ties to even) and the floor
of that value is returned.  The binade exponent `e` (the integer with
`2^e ≤ a/b < 2^(e+1)`) is found by fuelled halving of the integer
quotient, exact for every quotient magnitude below 2^1100; past the
binary64 range CPython raises OverflowError rather than returning a
float, and for subnormally small quotients the value is below 1 under
either rounding precision, so the floor is unaffected. -/
def floatTrueDivFloor (a b : Nat) : Nat :=
  if a = 0 then 0
  else
    let e : Int :=
      if b ≤ a then Int.ofNat (log2floorFuel 1100 (a / b))
      else
        let f := log2floorFuel 1100 (b / a)
        if a * 2 ^ f = b then -(f : Int) else -((f : Int) + 1)
    let k : Int := 52 - e
    let num : Nat := if 0 ≤ k then a * 2 ^ k.toNat else a
    let den : Nat := if 0 ≤ k then b else b * 2 ^ (-k).toNat
    let m0 := num / den
    let rem := num % den
    let m : Nat :=
      if den < 2 * rem then m0 + 1
      else if 2 * rem < den then m0
      else if m0 % 2 = 0 then m0 else m0 + 1
    if 52 ≤ e then m * 2 ^ (e - 52).toNat else m / 2 ^ (52 - e).toNat

/-- Models `metrics_engine.py` `compute_metrics`.  `floor(classified *
10000 / total)` — Python float true division followed by `floor` — is
modelled by `floatTrueDivFloor`, the floor of the correctly rounded
binary64 quotient. -/
def compute_metrics (transactions : List Tx) (accrual : Accrual) : Metrics :=
  let non_transfer_abs_total := nonTransferAbsTotal transactions
  let classified_abs_total := classifiedAbsTotal transactions
  if non_transfer_abs_total = 0 then
    { non_transfer_abs_total_cents := 0
      classified_abs_total_cents := 0
      coverage_bp := 0
      missing_month_count := 0
      missing_month_penalty_bp := 0
      reconciliation_status := "NOT_RUN"
      reconciliation_bp := none
      base_confidence_bp := 0
      base_after_months_bp := 0
      bank_operational_inflow_cents := 0 }
  else
    let coverage_bp := floatTrueDivFloor (classified_abs_total * 10000) non_transfer_abs_total
    let inflow := bankOperationalInflow transactions
    let missing_month_count := missing_months (transactions.map fun t => t.txn_date)
    let missing_month_penalty_bp := min (missing_month_count * 1000) 5000
    let recon := reconciliation transactions accrual inflow
    let base_confidence : Int :=
      match recon with
      | ("OK", some recon_bp) => min (coverage_bp : Int) recon_bp
      | _ => (coverage_bp : Int)
    let base_after_months : Int := max 0 (base_confidence - (missing_month_penalty_bp : Int))
    { non_transfer_abs_total_cents := non_transfer_abs_total
      classified_abs_total_cents := classified_abs_total
      coverage_bp := coverage_bp
      missing_month_count := missing_month_count
      missing_month_penalty_bp := missing_month_penalty_bp
      reconciliation_status := recon.1
      reconciliation_bp := recon.2
      base_confidence_bp := base_confidence
      base_after_months_bp := base_after_months
      bank_operational_inflow_cents := inflow }

/-- An `Override` ledger row.  `weight` is kept in its string form
(`str(weight)` is what `_weight_to_bp` looks up); a missing `created_at`
is modelled by `""` (the source's `o.get("created_at", "")`), and a
missing `weight` by `"0"` (`str(ov.get("weight", 0))`). -/
structure Override where
  id : Option String
  entity_id : Option String
  ov_field : String
  old_value : String
  new_value : String
  weight : String
  created_at : String
deriving DecidableEq, Repr

/-- Models `confidence_engine.py` `_WEIGHT_STR_TO_BP` /` _weight_to_bp`:
weight string to basis points, defaulting to 0. -/
def weight_to_bp (weight : String) : Nat :=
  if weight = "0" then 0 else if weight = "0.0" then 0
  else if weight = "0.1" then 1000 else if weight = "0.5" then 5000
  else if weight = "0.6" then 6000 else if weight = "0.7" then 7000
  else if weight = "0.8" then 8000 else if weight = "0.9" then 9000
  else if weight = "1.0" then 10000 else 0

/-- Overrides sorted by `created_at` descending; Python's
`sorted(..., reverse=True)` is stable, as is `insertionSort` with a
greater-or-equal relation. -/
def sortOverridesDesc (overrides : List Override) : List Override :=
  List.insertionSort (fun a b => strLe b.created_at a.created_at = true) overrides

/-- One step of the `latest_per_entity` scan, split on the override's
`entity_id`: keep the first occurrence of each truthy `entity_id`
(`if key and key not in latest_per_entity`). -/
def latestStepGo (acc : List (String × Override)) (ov : Override) :
    Option String → List (String × Override)
  | some key => if key ≠ "" && !(acc.any fun p => p.1 = key) then acc ++ [(key, ov)] else acc
  | none => acc

/-- One step of the `latest_per_entity` scan. -/
def latestStep (acc : List (String × Override)) (ov : Override) : List (String × Override) :=
  latestStepGo acc ov ov.entity_id

/-- The `latest_per_entity` dict of `compute_override_penalty_bp`: first
occurrence of each truthy `entity_id` while scanning the
descending-sorted ledger, in insertion order. -/
def latestPerEntity (overrides : List Override) : List (String × Override) :=
  (sortOverridesDesc overrides).foldl latestStep []

/-- Per-entity contribution
`(val * 10000 // total) * weight_bp // 10000` of one effective override
(`val` is `abs(entity_values.get(entity_id, 0))`). -/
def overrideContribBp (entity_values : List (String × Int)) (total : Nat)
    (entity_id : String) (ov : Override) : Nat :=
  let val := (dictGetD entity_values entity_id 0).natAbs
  if val = 0 then 0
  else val * 10000 / total * weight_to_bp ov.weight / 10000

/-- Models `confidence_engine.py` `compute_override_penalty_bp`: only the
latest override per entity contributes, per-entity contributions are
floor-divided basis points, and the total is capped at 7000.  The `val
== 0: continue` of the source is the `if val = 0 then 0` of
`overrideContribBp`. -/
def compute_override_penalty_bp (overrides : List Override)
    (entity_values : List (String × Int)) (non_transfer_abs_total : Int) : Nat :=
  if non_transfer_abs_total ≤ 0 then 0
  else
    let total := non_transfer_abs_total.toNat
    let impact_bp :=
      (latestPerEntity overrides).foldl
        (fun acc p => acc + overrideContribBp entity_values total p.1 p.2) 0
    min impact_bp 7000

/-- Models `confidence_engine.py` `compute_tier`: thresholds 8500/7000,
and a computed `High` is capped to `Medium` when reconciliation is not
`OK`. -/
def compute_tier (confidence_bp : Int) (reconciliation_status : String) : String × Bool :=
  let tier := if confidence_bp ≥ 8500 then "High"
              else if confidence_bp ≥ 7000 then "Medium" else "Low"
  if reconciliation_status ≠ "OK" && tier = "High" then ("Medium", true)
  else (tier, false)

/-- The confidence dict returned by `finalize_confidence`. -/
structure Confidence where
  final_confidence_bp : Int
  tier : String
  tier_capped : Bool
  override_penalty_bp : Nat
deriving DecidableEq, Repr

/-- Models `confidence_engine.py` `finalize_confidence`. -/
def finalize_confidence (base_after_months_bp : Int) (override_penalty_bp : Nat)
    (reconciliation_status : String) : Confidence :=
  let final_conf := max 0 (base_after_months_bp - (override_penalty_bp : Int))
  let tc := compute_tier final_conf reconciliation_status
  { final_confidence_bp := final_conf
    tier := tc.1
    tier_capped := tc.2
    override_penalty_bp := override_penalty_bp }

/-- A `TxnEntityMapping` record as assembled in `run_pipeline` step 3. -/
structure TxnEntityRec where
  deal_id : String
  txn_id : String
  entity_id : String
  role : String
  role_version : String
deriving DecidableEq, Repr

/-- The `AnalysisRun` dict built by `run_pipeline`.  Hash fields hold the
canonical hashed content (see the hash-modelling convention). -/
structure AnalysisRun where
  id : String
  deal_id : String
  state : String
  schema_version : String
  config_version : String
  run_trigger : String
  non_transfer_abs_total_cents : Nat
  classified_abs_total_cents : Nat
  coverage_pct_bp : Nat
  missing_month_count : Nat
  missing_month_penalty_bp : Nat
  override_penalty_bp : Nat
  reconciliation_status : String
  reconciliation_pct_bp : Option Int
  base_confidence_bp : Int
  final_confidence_bp : Int
  tier : String
  tier_capped : Bool
  raw_transaction_hash : List Tx
  transfer_links_hash : List Link
  entities_hash : List Entity
  overrides_hash : List Override
  bank_operational_inflow_cents : Int
deriving DecidableEq, Repr

/-- Version constants from `v1/config.py`. -/
def SCHEMA_VERSION : String := "1.0.0"

def CONFIG_VERSION : String := "1.0.0"

/-- Sort key for transfer links:
`(l.get("txn_out_id") or "", l.get("txn_in_id") or "")`. -/
def linkKeyLe (a b : Link) : Bool :=
  let ao := a.txn_out_id.getD ""
  let bo := b.txn_out_id.getD ""
  if ao = bo then strLe (a.txn_in_id.getD "") (b.txn_in_id.getD "") else strLe ao bo

/-- The classification step of `run_pipeline` (step 3): sets `tx["role"]`
on every transaction in place. -/
def classifyAll (txs : List Tx) : List Tx :=
  txs.map fun tx => { tx with role := some (classify tx) }

/-- The txn-entity records of `run_pipeline` step 3, one per transaction in
list order (`txn_entity_map[tx["txn_id"]]` modelled by `dictGetD`). -/
def txnEntityRecords (deal_id : String) (txn_entity_map : List (String × String))
    (txs : List Tx) : List TxnEntityRec :=
  txs.map fun tx =>
    { deal_id := deal_id
      txn_id := tx.txn_id
      entity_id := dictGetD txn_entity_map tx.txn_id ""
      role := tx.role.getD ""
      role_version := "v1_rules" }

/-- The `entity_values` dict of `run_pipeline` step 5: per-entity sum of
absolute amounts over all transactions. -/
def entityValues (txn_entity_map : List (String × String)) (txs : List Tx) :
    List (String × Int) :=
  txs.foldl
    (fun acc tx =>
      let eid := dictGetD txn_entity_map tx.txn_id ""
      dictSet acc eid (dictGetD acc eid 0 + |tx.signed_amount_cents|))
    []

/-- Models `core/pipeline.py` `run_pipeline`.  The source draws
`str(uuid.uuid4())` for the run id — its only non-input-determined
value — which is modelled by the explicit `run_uuid` argument.  Returns
`(analysis_run, transfer_links, entities, txn_entity_records)`. -/
def run_pipeline (deal_id : String) (raw_transactions : List Tx)
    (overrides : List Override) (accrual : Accrual) (run_uuid : String) :
    AnalysisRun × List Link × List Entity × List TxnEntityRec :=
  let step1 := match_transfers raw_transactions
  let txs1 := step1.1
  let transfer_links := step1.2
  let step2 := build_entities deal_id txs1
  let entities := step2.1
  let txn_entity_map := step2.2.1
  let entities_hash := step2.2.2
  let txs := classifyAll txs1
  let txn_entity_records := txnEntityRecords deal_id txn_entity_map txs
  let metrics := compute_metrics txs accrual
  let entity_values := entityValues txn_entity_map txs
  let override_penalty_bp :=
    compute_override_penalty_bp overrides entity_values (metrics.non_transfer_abs_total_cents : Int)
  let confidence :=
    finalize_confidence metrics.base_after_months_bp override_penalty_bp
      metrics.reconciliation_status
  let transfer_links_hash :=
    canonical_hash (List.insertionSort (fun a b => linkKeyLe a b = true) transfer_links)
  let overrides_hash :=
    canonical_hash
      (List.insertionSort (fun a b : Override => strLe (a.id.getD "") (b.id.getD "") = true)
        overrides)
  let analysis_run : AnalysisRun :=
    { id := run_uuid
      deal_id := deal_id
      state := "LIVE_DRAFT"
      schema_version := SCHEMA_VERSION
      config_version := CONFIG_VERSION
      run_trigger := "parse_complete"
      non_transfer_abs_total_cents := metrics.non_transfer_abs_total_cents
      classified_abs_total_cents := metrics.classified_abs_total_cents
      coverage_pct_bp := metrics.coverage_bp
      missing_month_count := metrics.missing_month_count
      missing_month_penalty_bp := metrics.missing_month_penalty_bp
      override_penalty_bp := override_penalty_bp
      reconciliation_status := metrics.reconciliation_status
      reconciliation_pct_bp := metrics.reconciliation_bp
      base_confidence_bp := metrics.base_confidence_bp
      final_confidence_bp := confidence.final_confidence_bp
      tier := confidence.tier
      tier_capped := confidence.tier_capped
      raw_transaction_hash :=
        canonical_hash (List.insertionSort (fun a b : Tx => strLe a.txn_id b.txn_id = true) txs)
      transfer_links_hash := transfer_links_hash
      entities_hash := entities_hash
      overrides_hash := overrides_hash
      bank_operational_inflow_cents := metrics.bank_operational_inflow_cents }
  (analysis_run, transfer_links, entities, txn_entity_records)

/-- The metrics block `build_pds_payload` extracts. -/
structure MetricsBlock where
  coverage_bp : Nat
  missing_month_count : Nat
  missing_month_penalty_bp : Nat
  reconciliation_status : String
  reconciliation_bp : Option Int
deriving DecidableEq, Repr

/-- The confidence block `build_pds_payload` extracts. -/
structure ConfidenceBlock where
  final_confidence_bp : Int
  tier : String
  tier_capped : Bool
  override_penalty_bp : Nat
deriving DecidableEq, Repr

/-- The outcome-only payload of `snapshot_engine.py`
`_build_financial_state_payload`: everything except the override audit
trail.  `raw_transaction_hash` is `canonical_hash(transactions)` of the
already-sorted transactions. -/
structure FinancialStatePayload where
  schema_version : String
  config_version : String
  deal_id : String
  currency : String
  raw_transaction_hash : List Tx
  transactions : List Tx
  transfer_links : List Link
  entities : List Entity
  txn_entity_map : List TxnEntityRec
  metrics : MetricsBlock
  confidence : ConfidenceBlock
deriving DecidableEq, Repr

/-- Models `snapshot_engine.py` `_build_financial_state_payload`. -/
def build_financial_state_payload (schema_version config_version deal_id currency : String)
    (transactions : List Tx) (transfer_links : List Link) (entities : List Entity)
    (txn_entity_map : List TxnEntityRec) (metrics : MetricsBlock)
    (confidence : ConfidenceBlock) : FinancialStatePayload :=
  { schema_version := schema_version
    config_version := config_version
    deal_id := deal_id
    currency := currency
    raw_transaction_hash := canonical_hash transactions
    transactions := transactions
    transfer_links := transfer_links
    entities := entities
    txn_entity_map := txn_entity_map
    metrics := metrics
    confidence := confidence }

/-- Models `snapshot_engine.py` `compute_financial_state_hash`:
`canonical_hash([payload])` — the canonical serialized payload, modelled
by the payload content itself. -/
def compute_financial_state_hash (payload : FinancialStatePayload) : FinancialStatePayload :=
  payload

/-- The full snapshot payload of `build_pds_payload`: the outcome-only
payload plus `financial_state_hash` and the sorted `overrides_applied`
audit list.  Its canonical serialization is what `sha256_hash` hashes,
so `PdsPayload` equality models `sha256_hash` equality. -/
structure PdsPayload where
  fin : FinancialStatePayload
  financial_state_hash : FinancialStatePayload
  overrides_applied : List Override
deriving DecidableEq, Repr

/-- Models `snapshot_engine.py` `build_pds_payload`: sorts every
component, builds the outcome-only payload, stamps its hash, and appends
the sorted override audit list. -/
def build_pds_payload (schema_version config_version deal_id currency : String)
    (raw_transactions : List Tx) (transfer_links : List Link) (entities : List Entity)
    (txn_entity_map : List TxnEntityRec) (metrics : MetricsBlock)
    (confidence : ConfidenceBlock) (overrides_applied : List Override) : PdsPayload :=
  let sorted_txns := List.insertionSort (fun a b => rowKeyLe a b = true) raw_transactions
  let sorted_transfer_links :=
    List.insertionSort (fun a b => linkKeyLe a b = true) transfer_links
  let sorted_entities :=
    List.insertionSort (fun a b : Entity => strLe a.entity_id b.entity_id = true) entities
  let sorted_txn_entity_map :=
    List.insertionSort (fun a b : TxnEntityRec => strLe a.txn_id b.txn_id = true) txn_entity_map
  let financial_state_payload :=
    build_financial_state_payload schema_version config_version deal_id currency
      sorted_txns sorted_transfer_links sorted_entities sorted_txn_entity_map
      metrics confidence
  { fin := financial_state_payload
    financial_state_hash := compute_financial_state_hash financial_state_payload
    overrides_applied :=
      List.insertionSort
        (fun a b : Override => strLe (a.entity_id.getD "") (b.entity_id.getD "") = true)
        overrides_applied }

/-- The export payload assembly of `v1/api.py` `export` (lines 447-470):
run the pipeline, then hand its outputs to `build_pds_payload` with
`overrides_applied := overrides`.  The api's rewrite of map `txn_id`s to
storage row uuids only applies to rows carrying a storage `id` and is
the same deterministic function of the pipeline output in every run, so
it is not repeated here.  Returns `(analysis_run, pds_payload)`. -/
def exportPayload (deal_id currency : String) (raw_transactions : List Tx)
    (overrides : List Override) (accrual : Accrual) (run_uuid : String) :
    AnalysisRun × PdsPayload :=
  let r := run_pipeline deal_id raw_transactions overrides accrual run_uuid
  let run := r.1
  let links := r.2.1
  let entities := r.2.2.1
  let txn_map := r.2.2.2
  let txs := (match_transfers raw_transactions).1
  let payload :=
    build_pds_payload run.schema_version run.config_version deal_id currency
      (classifyAll txs) links entities txn_map
      { coverage_bp := run.coverage_pct_bp
        missing_month_count := run.missing_month_count
        missing_month_penalty_bp := run.missing_month_penalty_bp
        reconciliation_status := run.reconciliation_status
        reconciliation_bp := run.reconciliation_pct_bp }
      { final_confidence_bp := run.final_confidence_bp
        tier := run.tier
        tier_capped := run.tier_capped
        override_penalty_bp := run.override_penalty_bp }
      overrides
  (run, payload)

/-- A `Document` row as the export gate and the ingestion failure handler
see it. -/
structure Document where
  id : String
  deal_id : String
  status : String
  error_type : Option String
  error_message : Option String
  error_stage : Option String
  next_action : Option String
  currency_mismatch : Bool
deriving DecidableEq, Repr

/-- A structured API error as raised by `v1/api.py` `_error`. -/
structure ApiError where
  error_code : String
  message : String
  status : Nat
  next_action : String
deriving DecidableEq, Repr

/-- Models the document-readiness gate of `v1/api.py` `export` (lines
372-375): collect the documents whose status is not `"completed"` and
refuse with `DOCUMENTS_NOT_READY` when any exist.  Note the gate blocks
on every non-completed status — `"failed"` as well as `"processing"`. -/
def exportReadinessGate (docs : List Document) : Except ApiError Unit :=
  let not_ready := docs.filter fun d => d.status ≠ "completed"
  if not_ready.isEmpty then Except.ok ()
  else
    Except.error
      { error_code := "DOCUMENTS_NOT_READY"
        message := "Documents still processing"
        status := 409
        next_action := "wait_or_retry" }

/-- Models `ingestion/service.py` `_update_failed` /
`documents_repo.update_status`: set the failing document's status to
`"failed"` with the structured error fields, leaving every other
document of the store untouched. -/
def updateFailed (docs : List Document) (document_id : String)
    (error_type error_message stage next_action : String) (currency_mismatch : Bool) :
    List Document :=
  docs.map fun d =>
    if d.id = document_id then
      { d with
        status := "failed"
        error_type := some error_type
        error_message := some error_message
        error_stage := some stage
        next_action := some next_action
        currency_mismatch := currency_mismatch }
    else d

/-- A three-component numeric date string
`digits(v1,w1) sep1 digits(v2,w2) sep2 digits(v3,w3)`: component values
with their digit-run widths (leading zeros allowed, `vi < 10 ^ wi`) and
the two separator characters.  This is the fragment of raw date strings
that `parsing/common.py` `parse_date`'s string branch distinguishes. -/
structure NumDateStr where
  v1 : Nat
  w1 : Nat
  v2 : Nat
  w2 : Nat
  v3 : Nat
  w3 : Nat
  sep1 : Char
  sep2 : Char
deriving DecidableEq, Repr

/-- Does the string match the ambiguous two-digit-year regex that
`parse_date` rejects outright: one or two digits, a slash or dash, one or
two digits, a slash or dash, then exactly two digits (full match)? -/
def ambiguousTwoDigitYear (s : NumDateStr) : Bool :=
  (1 ≤ s.w1 && s.w1 ≤ 2) && (1 ≤ s.w2 && s.w2 ≤ 2) && s.w3 = 2 &&
  (s.sep1 = '/' || s.sep1 = '-') && (s.sep2 = '/' || s.sep2 = '-')

/-- Does a digit run of value `v` and width `w` match CPython strptime's
`%d` pattern `3[01]|[12]\d|0[1-9]|[1-9]` (a 1-digit 1-9 or 2-digit
01-31 day)? -/
def strptimeDayOk (v w : Nat) : Bool :=
  (w = 1 && 1 ≤ v && v ≤ 9) || (w = 2 && 1 ≤ v && v ≤ 31)

/-- Does a digit run match CPython strptime's `%m` pattern
`1[0-2]|0[1-9]|[1-9]` (a 1-digit 1-9 or 2-digit 01-12 month)? -/
def strptimeMonthOk (v w : Nat) : Bool :=
  (w = 1 && 1 ≤ v && v ≤ 9) || (w = 2 && 1 ≤ v && v ≤ 12)

/-- Does a digit run match `%Y` (`\d\d\d\d`, exactly four digits)? -/
def strptimeYearOk (w : Nat) : Bool := w = 4

/-- Is `(y, m, d)` constructible as a `datetime.date` (strptime raises
`ValueError` otherwise and `parse_date` falls through to the next
pattern)?  `m` is already in 1..12 from the `%m` pattern. -/
def pyDateValid (y m d : Nat) : Bool :=
  1 ≤ y && y ≤ 9999 && 1 ≤ d && d ≤ daysInMonth y m

/-- One strptime attempt for a `year sep month sep day` pattern
(`%Y-%m-%d` / `%Y/%m/%d`), with the required literal separator. -/
def tryYMD (sep : Char) (s : NumDateStr) : Option Date :=
  if s.sep1 = sep && s.sep2 = sep && strptimeYearOk s.w1 && strptimeMonthOk s.v2 s.w2 &&
     strptimeDayOk s.v3 s.w3 && pyDateValid s.v1 s.v2 s.v3 then
    some { year := s.v1, month := s.v2, day := s.v3 }
  else none

/-- One strptime attempt for a `day sep month sep year` pattern
(`%d-%m-%Y` / `%d/%m/%Y`). -/
def tryDMY (sep : Char) (s : NumDateStr) : Option Date :=
  if s.sep1 = sep && s.sep2 = sep && strptimeDayOk s.v1 s.w1 && strptimeMonthOk s.v2 s.w2 &&
     strptimeYearOk s.w3 && pyDateValid s.v3 s.v2 s.v1 then
    some { year := s.v3, month := s.v2, day := s.v1 }
  else none

/-- One strptime attempt for a `month sep day sep year` pattern
(`%m-%d-%Y` / `%m/%d/%Y`). -/
def tryMDY (sep : Char) (s : NumDateStr) : Option Date :=
  if s.sep1 = sep && s.sep2 = sep && strptimeMonthOk s.v1 s.w1 && strptimeDayOk s.v2 s.w2 &&
     strptimeYearOk s.w3 && pyDateValid s.v3 s.v1 s.v2 then
    some { year := s.v3, month := s.v1, day := s.v2 }
  else none

/-- Models the string branch of `parsing/common.py` `parse_date` on the
three-component numeric fragment: reject the ambiguous two-digit-year
regex first, then try the six explicit patterns in source order
(`%Y-%m-%d`, `%Y/%m/%d`, `%d-%m-%Y`, `%d/%m/%Y`, `%m-%d-%Y`,
`%m/%d/%Y`), returning the first that both matches and builds a valid
`datetime.date`; otherwise the `Unparseable date` error. -/
def parse_date (s : NumDateStr) : Except String Date :=
  if ambiguousTwoDigitYear s then Except.error "Ambiguous date format"
  else
    match tryYMD '-' s with
    | some d => Except.ok d
    | none =>
      match tryYMD '/' s with
      | some d => Except.ok d
      | none =>
        match tryDMY '-' s with
        | some d => Except.ok d
        | none =>
          match tryDMY '/' s with
          | some d => Except.ok d
          | none =>
            match tryMDY '-' s with
            | some d => Except.ok d
            | none =>
              match tryMDY '/' s with
              | some d => Except.ok d
              | none => Except.error "Unparseable date"

/-- Row builder for the concrete examples below: a fresh canonical row
with the given date, amount, descriptor, account and txn id. -/
def mkRow (d : Date) (amt : Int) (nd acct tid : String) : Tx :=
  { id := none, deal_id := none, txn_date := d, signed_amount_cents := amt,
    raw_descriptor := nd, parsed_descriptor := nd, normalized_descriptor := nd,
    account_id := acct, txn_id := tid, is_transfer := false, role := none }

/-- An absent accrual reference (reconciliation disabled). -/
def accrualAbsent : Accrual := { accrual_revenue_cents := none,
                                 accrual_period_start := none,
                                 accrual_period_end := none }

/-- Transfer-ambiguity example: the −500-cent transaction. -/
def txNeg500 : Tx := mkRow ⟨2024, 1, 5⟩ (-500) "move out" "A" "t1"

/-- Transfer-ambiguity example: first +500-cent candidate, one account
away and zero days apart. -/
def txPosB500 : Tx := mkRow ⟨2024, 1, 5⟩ 500 "move in b" "B" "t2"

/-- Transfer-ambiguity example: second +500-cent candidate, within the
2-day window. -/
def txPosC500 : Tx := mkRow ⟨2024, 1, 6⟩ 500 "move in c" "C" "t3"

/-- Unambiguous transfer example: the outgoing side. -/
def txOut500 : Tx := mkRow ⟨2024, 1, 5⟩ (-500) "transfer out" "A" "t1"

/-- Unambiguous transfer example: the incoming side. -/
def txIn500 : Tx := mkRow ⟨2024, 1, 6⟩ 500 "incoming move" "B" "t2"

/-- Coverage floor example: 66667 classified cents. -/
def txCov1 : Tx := { mkRow ⟨2024, 1, 5⟩ 66667 "client pay" "A" "t1" with
                     role := some "revenue_operational" }

/-- Coverage floor example: 33333 unclassified cents. -/
def txCov2 : Tx := { mkRow ⟨2024, 1, 6⟩ 33333 "zzz" "A" "t2" with role := some "other" }

/-- Coverage precision example: a classified transaction of
1999800009998 cents. -/
def txCovBig1 : Tx := { mkRow ⟨2024, 1, 5⟩ 1999800009998 "client pay" "A" "t1" with
                        role := some "revenue_operational" }

/-- Coverage precision example: an unclassified transaction of
200000001 cents, bringing the non-transfer total to 2000000009999. -/
def txCovBig2 : Tx := { mkRow ⟨2024, 1, 6⟩ 200000001 "zzz" "A" "t2" with
                        role := some "other" }

/-- Missing-months example: transactions on 2024-01-15, 2024-02-10 and
2024-03-20 — February lies strictly between the first and last date and
contains a transaction. -/
def txsJanFebMar : List Tx :=
  [mkRow ⟨2024, 1, 15⟩ 10000 "alpha" "A" "t1",
   mkRow ⟨2024, 2, 10⟩ 10000 "beta" "A" "t2",
   mkRow ⟨2024, 3, 20⟩ 10000 "gamma" "A" "t3"]

/-- Duplicate-`txn_id` example: a canonical row whose `txn_id` is exactly
`compute_txn_id` of its own fields for document `doc1`. -/
def txDupA : Tx := mkRow ⟨2024, 1, 5⟩ 100 "foo bar" "default"
  "doc1|default|2024-01-05|100|foo bar"

/-- The same canonical row with a differently-cased raw descriptor: the
normalized descriptor, and hence the `txn_id`, are identical, but the
records differ. -/
def txDupB : Tx := { txDupA with raw_descriptor := "foo BAR", parsed_descriptor := "foo BAR" }

/-- Row-order-invariance witness rows: two rows with distinct `txn_id`s. -/
def txW1 : Tx := mkRow ⟨2024, 1, 5⟩ 100 "alpha pay" "A" "t1"

def txW2 : Tx := mkRow ⟨2024, 1, 6⟩ (-200) "beta supply" "A" "t2"

/-- A completed document. -/
def docCompleted : Document :=
  { id := "doc-1", deal_id := "deal-1", status := "completed", error_type := none,
    error_message := none, error_stage := none, next_action := none,
    currency_mismatch := false }

/-- A document that terminated in the terminal `failed` state with the
structured error fields attached. -/
def docFailed : Document :=
  { id := "doc-2", deal_id := "deal-1", status := "failed",
    error_type := some "SchemaValidationError",
    error_message := some "Missing required columns: amount",
    error_stage := some "PARSE_START", next_action := some "fix_csv_header",
    currency_mismatch := false }

/-- A document still being processed. -/
def docProcessing : Document :=
  { id := "doc-3", deal_id := "deal-1", status := "processing", error_type := none,
    error_message := none, error_stage := none, next_action := none,
    currency_mismatch := false }

/-- Override-cap example: a maximum-weight override on entity `e1`. -/
def ovFull : Override :=
  { id := some "o1", entity_id := some "e1", ov_field := "role",
    old_value := "revenue_operational", new_value := "supplier",
    weight := "1.0", created_at := "2024-01-01T00:00:00" }

/-- Revert example: the transaction whose single entity carries the whole
deal volume. -/
def txRevert : Tx := mkRow ⟨2024, 1, 5⟩ 100000 "client pay" "A" "t1"

/-- Revert example: the initial weight-1.0 override on the entity of
`txRevert`. -/
def ovApply : Override :=
  { id := some "o1", entity_id := some "d1|client pay", ov_field := "role",
    old_value := "revenue_operational", new_value := "supplier",
    weight := "1.0", created_at := "2024-01-01T00:00:00" }

/-- Revert example: the later override whose `new_value` restores the
original effective role, carrying derived weight 0.0. -/
def ovRevert : Override :=
  { id := some "o2", entity_id := some "d1|client pay", ov_field := "role",
    old_value := "supplier", new_value := "revenue_operational",
    weight := "0.0", created_at := "2024-01-02T00:00:00" }

/-! Order infrastructure: `charsLe` / `strLe` / `dateLe` are total
preorders with antisymmetry, matching Python's string and date orders. -/

theorem charVal_inj {c d : Char} (h : c.val.toNat = d.val.toNat) : c = d :=
  Char.ext (UInt32.ext h)

theorem charsLe_refl (a : List Char) : charsLe a a = true := by
  induction a with
  | nil => rfl
  | cons c t ih => simp [charsLe, ih]

theorem charsLe_total (a b : List Char) : charsLe a b = true ∨ charsLe b a = true := by
  induction a generalizing b with
  | nil => left; rfl
  | cons c t ih =>
    cases b with
    | nil => right; rfl
    | cons d u =>
      rcases Nat.lt_trichotomy c.val.toNat d.val.toNat with h | h | h
      · left
        simp only [charsLe, if_neg (Nat.ne_of_lt h), decide_eq_true_eq]
        exact h
      · rcases ih u with h1 | h1
        · left
          simpa only [charsLe, if_pos h] using h1
        · right
          simpa only [charsLe, if_pos h.symm] using h1
      · right
        simp only [charsLe, if_neg (Nat.ne_of_lt h), decide_eq_true_eq]
        exact h

theorem charsLe_trans (a b c : List Char) (hab : charsLe a b = true)
    (hbc : charsLe b c = true) : charsLe a c = true := by
  induction a generalizing b c with
  | nil => rfl
  | cons x t ih =>
    cases b with
    | nil => simp [charsLe] at hab
    | cons y u =>
      cases c with
      | nil => simp [charsLe] at hbc
      | cons z v =>
        simp only [charsLe] at hab hbc ⊢
        by_cases hxy : x.val.toNat = y.val.toNat
        · rw [if_pos hxy] at hab
          by_cases hyz : y.val.toNat = z.val.toNat
          · rw [if_pos hyz] at hbc
            rw [if_pos (hxy.trans hyz)]
            exact ih u v hab hbc
          · rw [if_neg hyz, decide_eq_true_eq] at hbc
            have hxz : x.val.toNat < z.val.toNat := by omega
            rw [if_neg (Nat.ne_of_lt hxz), decide_eq_true_eq]
            exact hxz
        · rw [if_neg hxy, decide_eq_true_eq] at hab
          by_cases hyz : y.val.toNat = z.val.toNat
          · have hxz : x.val.toNat < z.val.toNat := by omega
            rw [if_neg (Nat.ne_of_lt hxz), decide_eq_true_eq]
            exact hxz
          · rw [if_neg hyz, decide_eq_true_eq] at hbc
            have hxz : x.val.toNat < z.val.toNat := Nat.lt_trans hab hbc
            rw [if_neg (Nat.ne_of_lt hxz), decide_eq_true_eq]
            exact hxz

theorem charsLe_antisymm (a b : List Char) (hab : charsLe a b = true)
    (hba : charsLe b a = true) : a = b := by
  induction a generalizing b with
  | nil =>
    cases b with
    | nil => rfl
    | cons y u => simp [charsLe] at hba
  | cons x t ih =>
    cases b with
    | nil => simp [charsLe] at hab
    | cons y u =>
      by_cases hxy : x.val.toNat = y.val.toNat
      · rw [charVal_inj hxy, ih u (by simpa only [charsLe, if_pos hxy] using hab)
          (by simpa only [charsLe, if_pos hxy.symm] using hba)]
      · simp only [charsLe, if_neg hxy, if_neg (Ne.symm hxy), decide_eq_true_eq] at hab hba
        omega

theorem strLe_refl (a : String) : strLe a a = true := charsLe_refl _

theorem strLe_total (a b : String) : strLe a b = true ∨ strLe b a = true :=
  charsLe_total _ _

theorem strLe_trans (a b c : String) (hab : strLe a b = true) (hbc : strLe b c = true) :
    strLe a c = true := charsLe_trans _ _ _ hab hbc

theorem strLe_antisymm (a b : String) (hab : strLe a b = true) (hba : strLe b a = true) :
    a = b :=
  String.ext (charsLe_antisymm _ _ hab hba)

theorem dateLe_iff (a b : Date) : dateLe a b = true ↔
    (a.year < b.year ∨ (a.year = b.year ∧
      (a.month < b.month ∨ (a.month = b.month ∧ a.day ≤ b.day)))) := by
  unfold dateLe
  by_cases h1 : a.year = b.year <;> by_cases h2 : a.month = b.month <;>
    simp [h1, h2] <;> omega

theorem dateLe_total (a b : Date) : dateLe a b = true ∨ dateLe b a = true := by
  rw [dateLe_iff, dateLe_iff]
  omega

theorem dateLe_trans (a b c : Date) (hab : dateLe a b = true) (hbc : dateLe b c = true) :
    dateLe a c = true := by
  rw [dateLe_iff] at hab hbc ⊢
  omega

theorem dateLe_antisymm (a b : Date) (hab : dateLe a b = true) (hba : dateLe b a = true) :
    a = b := by
  rw [dateLe_iff] at hab hba
  obtain ⟨ay, am, ad⟩ := a
  obtain ⟨by1, bm, bd⟩ := b
  simp only [Date.mk.injEq]
  simp only at hab hba
  omega

/-! Generic facts about stable sorting of permuted lists: two sorted lists
that are permutations of one another and whose sort keys separate their
elements are equal. -/

theorem eq_of_perm_of_sorted_key {α β : Type} (key : α → β) (le : β → β → Bool)
    (hanti : ∀ x y, le x y = true → le y x = true → x = y) :
    ∀ (l₁ l₂ : List α), l₁.Perm l₂ →
      l₁.Sorted (fun a b => le (key a) (key b) = true) →
      l₂.Sorted (fun a b => le (key a) (key b) = true) →
      (∀ x ∈ l₁, ∀ y ∈ l₁, key x = key y → x = y) → l₁ = l₂ := by
  intro l₁
  induction l₁ with
  | nil =>
    intro l₂ hp _ _ _
    exact (List.Perm.nil_eq hp)
  | cons a t ih =>
    intro l₂ hp hs₁ hs₂ hinj
    cases l₂ with
    | nil => exact absurd (List.Perm.eq_nil hp) (by simp)
    | cons b u =>
      by_cases hab : a = b
      · subst hab
        have ht : t.Perm u := hp.cons_inv
        have hrec := ih u ht (List.sorted_cons.mp hs₁).2 (List.sorted_cons.mp hs₂).2
          (fun x hx y hy hk => hinj x (List.mem_cons_of_mem _ hx)
            y (List.mem_cons_of_mem _ hy) hk)
        rw [hrec]
      · exfalso
        have hbt : b ∈ t := by
          have : b ∈ a :: t := hp.mem_iff.mpr (List.mem_cons_self b u)
          cases this with
          | head => exact absurd rfl (Ne.symm hab)
          | tail _ h => exact h
        have hau : a ∈ u := by
          have : a ∈ b :: u := hp.mem_iff.mp (List.mem_cons_self a t)
          cases this with
          | head => exact absurd rfl hab
          | tail _ h => exact h
        have h₁ : le (key a) (key b) = true := (List.sorted_cons.mp hs₁).1 b hbt
        have h₂ : le (key b) (key a) = true := (List.sorted_cons.mp hs₂).1 a hau
        exact hab (hinj a (List.mem_cons_self a t) b (List.mem_cons_of_mem _ hbt)
          (hanti _ _ h₁ h₂))

/-- Sortedness of `insertionSort` for a key-based boolean relation, with
totality and transitivity supplied as plain hypotheses. -/
theorem sorted_insertionSort_key {α β : Type} (key : α → β) (le : β → β → Bool)
    (htotal : ∀ x y, le x y = true ∨ le y x = true)
    (htrans : ∀ x y z, le x y = true → le y z = true → le x z = true)
    (l : List α) :
    (List.insertionSort (fun a b => le (key a) (key b) = true) l).Sorted
      (fun a b => le (key a) (key b) = true) := by
  haveI : IsTotal α (fun a b => le (key a) (key b) = true) := ⟨fun a b => htotal _ _⟩
  haveI : IsTrans α (fun a b => le (key a) (key b) = true) :=
    ⟨fun a b c hab hbc => htrans _ _ _ hab hbc⟩
  exact List.sorted_insertionSort _ l

/-- C9: for every final confidence value and reconciliation status, the
returned tier is `High` only if `final_confidence_bp ≥ 8500` and the
status is `OK`; a confidence of at least 8500 with a non-`OK` status is
forced down to `Medium` with `tier_capped` set; `[7000, 8500)` gives
`Medium` and below 7000 gives `Low`, both uncapped — so no returned
result ever pairs tier `High` with a reconciliation status other than
`OK`. -/
theorem claim_C9 : ∀ (confidence_bp : Int) (status : String),
    ((compute_tier confidence_bp status).1 = "High" →
      status = "OK" ∧ 8500 ≤ confidence_bp) ∧
    (8500 ≤ confidence_bp → status ≠ "OK" →
      compute_tier confidence_bp status = ("Medium", true)) ∧
    (8500 ≤ confidence_bp → status = "OK" →
      compute_tier confidence_bp status = ("High", false)) ∧
    (7000 ≤ confidence_bp → confidence_bp < 8500 →
      compute_tier confidence_bp status = ("Medium", false)) ∧
    (confidence_bp < 7000 → compute_tier confidence_bp status = ("Low", false)) := by
  intro conf status
  unfold compute_tier
  by_cases h1 : 8500 ≤ conf
  · by_cases h3 : status = "OK"
    · subst h3
      simp only [ge_iff_le, if_pos h1]
      refine ⟨fun _ => ⟨trivial, h1⟩, fun _ h => absurd rfl h, fun _ _ => by simp,
        fun _ h => absurd h1 (by omega), fun h => absurd h1 (by omega)⟩
    · simp only [ge_iff_le, if_pos h1]
      rw [if_pos (by simp [h3])]
      refine ⟨fun h => absurd h (by simp), fun _ _ => rfl, fun _ h => absurd h h3,
        fun _ h => absurd h1 (by omega), fun h => absurd h1 (by omega)⟩
  · by_cases h2 : 7000 ≤ conf
    · simp only [ge_iff_le, if_neg h1, if_pos h2]
      rw [if_neg (by simp)]
      refine ⟨fun h => absurd h (by simp), fun h => absurd h h1, fun h => absurd h h1,
        fun _ _ => rfl, fun h => absurd h2 (by omega)⟩
    · simp only [ge_iff_le, if_neg h1, if_neg h2]
      rw [if_neg (by simp)]
      refine ⟨fun h => absurd h (by simp), fun h => absurd h h1, fun h => absurd h h1,
        fun h => absurd h h2, fun _ => rfl⟩

/-- C9 witness: at confidence 9000 with status `FAILED_OVERLAP` the
theorem yields the capped `Medium` tier. -/
theorem claim_C9_witness : compute_tier 9000 "FAILED_OVERLAP" = ("Medium", true) :=
  (claim_C9 9000 "FAILED_OVERLAP").2.1 (by decide) (by decide)

/-- C6 (code evaluation at the failing input): on two non-transfer
transactions of 1999800009998 classified and 200000001 unclassified
cents, the code's `floor(classified * 10000 / total)` — float true
division then `floor` — returns `coverage_bp = 9999`, while the exact
floor the claim specifies is 9998: the exact quotient is
9999 − 1/total, within half an ulp of 9999, so the correctly rounded
binary64 quotient is exactly 9999.0 and its floor crosses the integer.
The zero-denominator branch still returns 0 before any division, and on
the spec's own small instance (classified 66667, total 100000) the float
quotient is exact enough that the code does produce 6666, not 6667 — the
divergence appears only once `classified * 10000` passes the 2^53
significand bound. -/
theorem claim_C6_code_eval :
    nonTransferAbsTotal [txCovBig1, txCovBig2] = 2000000009999 ∧
    classifiedAbsTotal [txCovBig1, txCovBig2] = 1999800009998 ∧
    (compute_metrics [txCovBig1, txCovBig2] accrualAbsent).coverage_bp = 9999 ∧
    1999800009998 * 10000 / 2000000009999 = 9998 ∧
    (compute_metrics [] accrualAbsent).coverage_bp = 0 ∧
    classifiedAbsTotal [txCov1, txCov2] = 66667 ∧
    nonTransferAbsTotal [txCov1, txCov2] = 100000 ∧
    (compute_metrics [txCov1, txCov2] accrualAbsent).coverage_bp = 6666 := by
  refine ⟨by decide, by decide, by decide, by decide, by decide,
    by decide, by decide, by decide⟩

/-- C3 (code evaluation at the failing input): for transactions on
2024-01-15, 2024-02-10 and 2024-03-20, the code reports
`missing_month_count = 1` and `missing_month_penalty_bp = 1000`,
counting February as missing even though 2024-02-10 lies in February —
`_missing_months` inspects only the minimum and maximum dates and counts
every whole month strictly between them, never testing whether a month
contains a transaction.  The claim (a month strictly between the first
and last date that does contain a transaction is not counted) requires 0
here. -/
theorem claim_C3_code_eval :
    missing_months [⟨2024, 1, 15⟩, ⟨2024, 2, 10⟩, ⟨2024, 3, 20⟩] = 1 ∧
    (compute_metrics txsJanFebMar accrualAbsent).missing_month_count = 1 ∧
    (compute_metrics txsJanFebMar accrualAbsent).missing_month_penalty_bp = 1000 ∧
    (txsJanFebMar.map fun t => t.txn_date) =
      [⟨2024, 1, 15⟩, ⟨2024, 2, 10⟩, ⟨2024, 3, 20⟩] := by
  refine ⟨by decide, by decide, by decide, by decide⟩

theorem twelve_le_daysInMonth (y m : Nat) : 12 ≤ daysInMonth y m := by
  rcases m with _ | _ | _ | _ | _ | _ | _ | _ | _ | _ | _ | _ | _ | m <;>
    simp only [daysInMonth] <;> (try omega) <;> (by_cases h : isLeap y <;> simp [h])

theorem monthOk_dayOk {v w : Nat} (h : strptimeMonthOk v w = true) :
    strptimeDayOk v w = true := by
  simp only [strptimeMonthOk, strptimeDayOk, Bool.or_eq_true, Bool.and_eq_true,
    decide_eq_true_eq] at h ⊢
  omega

theorem monthOk_bounds {v w : Nat} (h : strptimeMonthOk v w = true) :
    1 ≤ v ∧ v ≤ 12 ∧ (w = 1 ∨ w = 2) := by
  simp only [strptimeMonthOk, Bool.or_eq_true, Bool.and_eq_true, decide_eq_true_eq] at h
  omega

/-- C10: a numeric date string with a four-digit year whose first two
components both match the strptime month pattern (so the string matches
both the day-first and the month-first formats, e.g. `02/03/2024`) is
parsed deterministically day-first — `parse_date` returns
`year = v3, month = v2, day = v1` — and never fails; and exactly the
two-digit-year numeric forms are rejected as ambiguous. -/
theorem claim_C10 :
    (∀ s : NumDateStr,
      strptimeMonthOk s.v1 s.w1 = true →
      strptimeMonthOk s.v2 s.w2 = true →
      s.w3 = 4 → 1 ≤ s.v3 → s.v3 ≤ 9999 →
      s.sep1 = s.sep2 → (s.sep1 = '/' ∨ s.sep1 = '-') →
      parse_date s = Except.ok { year := s.v3, month := s.v2, day := s.v1 }) ∧
    (∀ s : NumDateStr,
      parse_date s = Except.error "Ambiguous date format" ↔
        ambiguousTwoDigitYear s = true) ∧
    parse_date { v1 := 2, w1 := 2, v2 := 3, w2 := 2, v3 := 2024, w3 := 4,
                 sep1 := '/', sep2 := '/' } =
      Except.ok { year := 2024, month := 3, day := 2 } := by
  refine ⟨?_, ?_, by rfl⟩
  · intro s h1 h2 hw3 hv3lo hv3hi hsep hslash
    obtain ⟨v1, w1, v2, w2, v3, w3, sep1, sep2⟩ := s
    simp only at h1 h2 hw3 hv3lo hv3hi hsep hslash
    subst hw3
    subst hsep
    obtain ⟨hv1lo, hv1hi, hw1⟩ := monthOk_bounds h1
    have hday : strptimeDayOk v1 w1 = true := monthOk_dayOk h1
    have hvalid : pyDateValid v3 v2 v1 = true := by
      simp only [pyDateValid, Bool.and_eq_true, decide_eq_true_eq]
      exact ⟨⟨⟨hv3lo, hv3hi⟩, hv1lo⟩,
        le_trans hv1hi (twelve_le_daysInMonth v3 v2)⟩
    have hy4 : strptimeYearOk w1 = false := by
      rcases hw1 with h | h <;> subst h <;> rfl
    have hw3ne : (4 : Nat) ≠ 2 := by omega
    have hamb : ambiguousTwoDigitYear ⟨v1, w1, v2, w2, v3, 4, sep1, sep1⟩ = false := by
      simp [ambiguousTwoDigitYear]
    have hymd : ∀ c, tryYMD c ⟨v1, w1, v2, w2, v3, 4, sep1, sep1⟩ = none := by
      intro c
      simp [tryYMD, hy4]
    rcases hslash with hs | hs <;> subst hs
    · have hdmy1 : tryDMY '-' ⟨v1, w1, v2, w2, v3, 4, '/', '/'⟩ = none := by
        simp [tryDMY]
      have hdmy2 : tryDMY '/' ⟨v1, w1, v2, w2, v3, 4, '/', '/'⟩ =
          some { year := v3, month := v2, day := v1 } := by
        simp [tryDMY, strptimeYearOk, hday, h2, hvalid]
      unfold parse_date
      rw [if_neg (by simp [hamb])]
      rw [hymd '-', hymd '/', hdmy1, hdmy2]
    · have hdmy1 : tryDMY '-' ⟨v1, w1, v2, w2, v3, 4, '-', '-'⟩ =
          some { year := v3, month := v2, day := v1 } := by
        simp [tryDMY, strptimeYearOk, hday, h2, hvalid]
      unfold parse_date
      rw [if_neg (by simp [hamb])]
      rw [hymd '-', hymd '/', hdmy1]
  · intro s
    constructor
    · intro h
      by_contra hamb
      rw [Bool.not_eq_true] at hamb
      unfold parse_date at h
      rw [if_neg (by simp [hamb])] at h
      rcases h1 : tryYMD '-' s with _ | d <;> rw [h1] at h
      · rcases h2 : tryYMD '/' s with _ | d <;> rw [h2] at h
        · rcases h3 : tryDMY '-' s with _ | d <;> rw [h3] at h
          · rcases h4 : tryDMY '/' s with _ | d <;> rw [h4] at h
            · rcases h5 : tryMDY '-' s with _ | d <;> rw [h5] at h
              · rcases h6 : tryMDY '/' s with _ | d <;> rw [h6] at h
                · exact absurd (Except.error.inj h) (by decide)
                · exact nomatch h
              · exact nomatch h
            · exact nomatch h
          · exact nomatch h
        · exact nomatch h
      · exact nomatch h
    · intro h
      unfold parse_date
      rw [if_pos h]

/-- C10 witness: the day-first theorem at the concrete string
`02/03/2024`, yielding 2024-03-02. -/
theorem claim_C10_witness :
    parse_date { v1 := 2, w1 := 2, v2 := 3, w2 := 2, v3 := 2024, w3 := 4,
                 sep1 := '/', sep2 := '/' } =
      Except.ok { year := 2024, month := 3, day := 2 } :=
  claim_C10.1 { v1 := 2, w1 := 2, v2 := 3, w2 := 2, v3 := 2024, w3 := 4,
                sep1 := '/', sep2 := '/' }
    (by decide) (by decide) (by decide) (by decide) (by decide) (by decide)
    (Or.inl (by decide))

/-- C4 counterexample: for a deal with one completed document and one
document in the terminal `failed` state, the export gate refuses with
`DOCUMENTS_NOT_READY` — the claim says export over the completed
documents still runs, but the gate blocks on every status other than
`completed`, `failed` included. -/
theorem claim_C4_counterexample :
    docCompleted.status = "completed" ∧ docFailed.status = "failed" ∧
    exportReadinessGate [docCompleted, docFailed] =
      Except.error
        { error_code := "DOCUMENTS_NOT_READY", message := "Documents still processing",
          status := 409, next_action := "wait_or_retry" } := by
  refine ⟨rfl, rfl, by rfl⟩

/-- C4 (amended): export refuses with a structured `DOCUMENTS_NOT_READY`
condition while any document of the deal is in any non-`completed`
state — `processing` and also the terminal `failed` state, so a failed
document does block export for the deal; the gate passes exactly when
every document is `completed`.  A document failure itself never mutates
the other documents of the deal: the failure handler updates only the
failing document's row, so already-completed documents keep their state. -/
theorem claim_C4_amended :
    (∀ docs : List Document, (∃ d ∈ docs, d.status = "processing") →
      exportReadinessGate docs =
        Except.error
          { error_code := "DOCUMENTS_NOT_READY", message := "Documents still processing",
            status := 409, next_action := "wait_or_retry" }) ∧
    (∀ docs : List Document,
      exportReadinessGate docs = Except.ok () ↔ ∀ d ∈ docs, d.status = "completed") ∧
    (∀ (docs : List Document) (document_id et em st na : String) (cm : Bool),
      ∀ d ∈ docs, d.id ≠ document_id →
        d ∈ updateFailed docs document_id et em st na cm) := by
  refine ⟨?_, ?_, ?_⟩
  · intro docs ⟨d, hd, hstat⟩
    unfold exportReadinessGate
    rw [if_neg]
    intro hempty
    rw [List.isEmpty_iff, List.filter_eq_nil_iff] at hempty
    exact hempty d hd (by simp [hstat])
  · intro docs
    unfold exportReadinessGate
    constructor
    · intro h
      by_cases hempty : (docs.filter fun d => d.status ≠ "completed").isEmpty
      · rw [List.isEmpty_iff, List.filter_eq_nil_iff] at hempty
        intro d hd
        have := hempty d hd
        simpa using this
      · rw [if_neg hempty] at h
        exact nomatch h
    · intro h
      rw [if_pos]
      rw [List.isEmpty_iff, List.filter_eq_nil_iff]
      intro d hd
      simp [h d hd]
  · intro docs document_id et em st na cm d hd hne
    unfold updateFailed
    refine List.mem_map.mpr ⟨d, hd, ?_⟩
    rw [if_neg hne]

/-- C4 witness: the amended gate at a deal with a single processing
document refuses with the structured condition, and `updateFailed` on
the failed document leaves the completed one in place. -/
theorem claim_C4_witness :
    exportReadinessGate [docProcessing] =
      Except.error
        { error_code := "DOCUMENTS_NOT_READY", message := "Documents still processing",
          status := 409, next_action := "wait_or_retry" } ∧
    docCompleted ∈ updateFailed [docCompleted, docFailed] "doc-2"
      "SchemaValidationError" "boom" "PARSE_START" "fix_csv_header" false :=
  ⟨claim_C4_amended.1 [docProcessing] ⟨docProcessing, by simp, rfl⟩,
   claim_C4_amended.2.2 [docCompleted, docFailed] "doc-2" "SchemaValidationError"
     "boom" "PARSE_START" "fix_csv_header" false docCompleted (by simp) (by decide)⟩

/-- C1 counterexample: two invocations of `run_pipeline` with the same
four arguments but distinct uuid4 draws return `AnalysisRun` records
that are not bit-identical — the `id` field is a fresh random UUID per
invocation. -/
theorem claim_C1_counterexample :
    (run_pipeline "d1" [] [] accrualAbsent "11111111-1111-4111-8111-111111111111").1 ≠
    (run_pipeline "d1" [] [] accrualAbsent "22222222-2222-4222-8222-222222222222").1 := by
  intro h
  have := congrArg AnalysisRun.id h
  exact absurd this (by decide)

/-- C1 (amended): `run_pipeline` is a pure function of its four arguments
and the uuid4 draw; two invocations with the same four arguments agree
on every field of the `AnalysisRun` except `id` (which is the fresh
uuid4 draw of each invocation), and return identical transfer links,
entities and txn-entity records. -/
theorem claim_C1_amended :
    ∀ (deal_id : String) (raw_transactions : List Tx) (overrides : List Override)
      (accrual : Accrual) (u1 u2 : String),
      ({ (run_pipeline deal_id raw_transactions overrides accrual u1).1 with id := "" } =
       { (run_pipeline deal_id raw_transactions overrides accrual u2).1 with id := "" }) ∧
      (run_pipeline deal_id raw_transactions overrides accrual u1).1.id = u1 ∧
      (run_pipeline deal_id raw_transactions overrides accrual u2).1.id = u2 ∧
      (run_pipeline deal_id raw_transactions overrides accrual u1).2 =
        (run_pipeline deal_id raw_transactions overrides accrual u2).2 := by
  intro deal_id raw_transactions overrides accrual u1 u2
  exact ⟨rfl, rfl, rfl, rfl⟩

theorem foldl_add_eq_sum_map {α : Type} (f : α → Nat) :
    ∀ (l : List α) (acc : Nat), l.foldl (fun a x => a + f x) acc = acc + (l.map f).sum := by
  intro l
  induction l with
  | nil => simp
  | cons x t ih =>
    intro acc
    simp only [List.foldl_cons, List.map_cons, List.sum_cons]
    rw [ih]
    omega

theorem latestStep_key_mono (acc : List (String × Override)) (ov : Override) (e : String)
    (h : acc.any (fun p => p.1 = e) = true) :
    (latestStep acc ov).any (fun p => p.1 = e) = true := by
  unfold latestStep
  cases hx : ov.entity_id with
  | none => simpa [latestStepGo] using h
  | some k =>
    simp only [latestStepGo]
    split
    · rw [List.any_append, h, Bool.true_or]
    · exact h

theorem latest_fold_of_key_present :
    ∀ (l : List Override) (acc : List (String × Override)) (e : String) (ov : Override),
      (e, ov) ∈ l.foldl latestStep acc →
      acc.any (fun p => p.1 = e) = true → (e, ov) ∈ acc := by
  intro l
  induction l with
  | nil => intro acc e ov hmem _; exact hmem
  | cons x t ih =>
    intro acc e ov hmem hkey
    have hmem' : (e, ov) ∈ latestStep acc x :=
      ih (latestStep acc x) e ov hmem (latestStep_key_mono acc x e hkey)
    unfold latestStep at hmem'
    cases hx : x.entity_id with
    | none => rw [hx] at hmem'; simpa [latestStepGo] using hmem'
    | some k =>
      rw [hx] at hmem'
      simp only [latestStepGo] at hmem'
      split at hmem'
      · rename_i hcond
        rcases List.mem_append.mp hmem' with h | h
        · exact h
        · exfalso
          have hpair : (e, ov) = (k, x) := List.mem_singleton.mp h
          have he : e = k := congrArg Prod.fst hpair
          rw [Bool.and_eq_true, Bool.not_eq_true'] at hcond
          rw [he] at hkey
          rw [hkey] at hcond
          exact nomatch hcond.2
      · exact hmem'

theorem latest_fold_spec :
    ∀ (l : List Override) (acc : List (String × Override)) (e : String) (ov : Override),
      l.Sorted (fun a b => strLe b.created_at a.created_at = true) →
      (e, ov) ∈ l.foldl latestStep acc →
      (e, ov) ∈ acc ∨
        (ov ∈ l ∧ ov.entity_id = some e ∧ e ≠ "" ∧
          ∀ ov' ∈ l, ov'.entity_id = some e →
            strLe ov'.created_at ov.created_at = true) := by
  intro l
  induction l with
  | nil =>
    intro acc e ov _ hmem
    exact Or.inl hmem
  | cons x t ih =>
    intro acc e ov hsorted hmem
    obtain ⟨hhead, htail⟩ := List.sorted_cons.mp hsorted
    rcases ih (latestStep acc x) e ov htail hmem with hacc | ⟨hovt, hkey, hne, hmax⟩
    · -- the pair was already present after processing the head
      unfold latestStep at hacc
      cases hx : x.entity_id with
      | none => rw [hx] at hacc; exact Or.inl (by simpa [latestStepGo] using hacc)
      | some k =>
        rw [hx] at hacc
        simp only [latestStepGo] at hacc
        split at hacc
        · rename_i hcond
          rcases List.mem_append.mp hacc with h | h
          · exact Or.inl h
          · have hpair : (e, ov) = (k, x) := List.mem_singleton.mp h
            have he : e = k := congrArg Prod.fst hpair
            have hov : ov = x := congrArg Prod.snd hpair
            subst he; subst hov
            refine Or.inr ⟨List.mem_cons_self _ _, hx, ?_, ?_⟩
            · rw [Bool.and_eq_true] at hcond
              simpa using hcond.1
            · intro ov' hov' _
              rcases List.mem_cons.mp hov' with heq | hmem2
              · subst heq; exact strLe_refl _
              · exact hhead ov' hmem2
        · exact Or.inl hacc
    · -- the pair was added while processing the tail
      by_cases hxk : x.entity_id = some e
      · -- the head already carries key `e`, so the key was present before
        -- the tail scan and the pair must in fact be the head's
        have hpres : (latestStep acc x).any (fun p => p.1 = e) = true := by
          unfold latestStep
          rw [hxk]
          simp only [latestStepGo]
          split
          · rw [List.any_append]
            simp
          · rename_i hcond
            rw [Bool.and_eq_true, Bool.not_eq_true'] at hcond
            by_cases hacc2 : (acc.any fun p => p.1 = e) = true
            · exact hacc2
            · rw [Bool.not_eq_true] at hacc2
              exact absurd ⟨by simpa using hne, hacc2⟩ hcond
        have hmem2 : (e, ov) ∈ latestStep acc x :=
          latest_fold_of_key_present t (latestStep acc x) e ov hmem hpres
        unfold latestStep at hmem2
        rw [hxk] at hmem2
        simp only [latestStepGo] at hmem2
        split at hmem2
        · rcases List.mem_append.mp hmem2 with h | h
          · exact Or.inl h
          · have hov : ov = x := congrArg Prod.snd (List.mem_singleton.mp h)
            subst hov
            refine Or.inr ⟨List.mem_cons_self _ _, hxk, hne, ?_⟩
            intro ov' hov' _
            rcases List.mem_cons.mp hov' with heq | hmem3
            · subst heq; exact strLe_refl _
            · exact hhead ov' hmem3
        · exact Or.inl hmem2
      · refine Or.inr ⟨List.mem_cons_of_mem _ hovt, hkey, hne, ?_⟩
        intro ov' hov' hkey'
        rcases List.mem_cons.mp hov' with heq | hmem2
        · subst heq; exact absurd hkey' hxk
        · exact hmax ov' hmem2 hkey'

theorem sortOverridesDesc_sorted (overrides : List Override) :
    (sortOverridesDesc overrides).Sorted
      (fun a b => strLe b.created_at a.created_at = true) :=
  sorted_insertionSort_key (fun o : Override => o.created_at) (fun x y => strLe y x)
    (fun x y => strLe_total y x) (fun x y z h1 h2 => strLe_trans z y x h2 h1) overrides

/-- C7: the override penalty is always capped at 7000 bp; for a positive
non-transfer total it is exactly `min` of the capped sum of per-entity
contributions `(val * 10000 // total) * weight_bp // 10000` over the
effective (latest-per-entity) overrides; the effective override of an
entity is one of that entity's ledger rows and carries the maximal
`created_at` among them (earlier overrides on the same entity are
superseded); and a single weight-1.0 override on an entity holding 100%
of the deal volume yields exactly 7000. -/
theorem claim_C7 :
    (∀ (overrides : List Override) (entity_values : List (String × Int))
        (non_transfer_abs_total : Int),
      compute_override_penalty_bp overrides entity_values non_transfer_abs_total ≤ 7000) ∧
    (∀ (overrides : List Override) (entity_values : List (String × Int))
        (non_transfer_abs_total : Int),
      0 < non_transfer_abs_total →
      compute_override_penalty_bp overrides entity_values non_transfer_abs_total =
        min (((latestPerEntity overrides).map fun p =>
          overrideContribBp entity_values non_transfer_abs_total.toNat p.1 p.2).sum)
          7000) ∧
    (∀ (overrides : List Override) (e : String) (ov : Override),
      (e, ov) ∈ latestPerEntity overrides →
        ov ∈ overrides ∧ ov.entity_id = some e ∧
          ∀ ov' ∈ overrides, ov'.entity_id = some e →
            strLe ov'.created_at ov.created_at = true) ∧
    compute_override_penalty_bp [ovFull] [("e1", 100000)] 100000 = 7000 := by
  refine ⟨?_, ?_, ?_, by decide⟩
  · intro overrides entity_values total
    unfold compute_override_penalty_bp
    by_cases h : total ≤ 0
    · rw [if_pos h]
      exact Nat.zero_le _
    · rw [if_neg h]
      exact Nat.min_le_right _ _
  · intro overrides entity_values total h
    unfold compute_override_penalty_bp
    rw [if_neg (by omega)]
    have hfold := foldl_add_eq_sum_map
      (fun p : String × Override => overrideContribBp entity_values total.toNat p.1 p.2)
      (latestPerEntity overrides) 0
    simp only [Nat.zero_add] at hfold
    show min (List.foldl
        (fun acc p => acc + overrideContribBp entity_values total.toNat p.1 p.2) 0
        (latestPerEntity overrides)) 7000 =
      min ((List.map (fun p => overrideContribBp entity_values total.toNat p.1 p.2)
        (latestPerEntity overrides)).sum) 7000
    rw [hfold]
  · intro overrides e ov hmem
    unfold latestPerEntity at hmem
    rcases latest_fold_spec (sortOverridesDesc overrides) [] e ov
        (sortOverridesDesc_sorted overrides) hmem with habs | ⟨hovs, hkey, _, hmax⟩
    · exact absurd habs (List.not_mem_nil _)
    · refine ⟨(List.perm_insertionSort _ overrides).mem_iff.mp hovs, hkey, ?_⟩
      intro ov' hov' hkey'
      exact hmax ov' ((List.perm_insertionSort _ overrides).mem_iff.mpr hov') hkey'

/-- C7 witness: the formula and the latest-wins fact applied at the
concrete maximum-weight full-volume override. -/
theorem claim_C7_witness :
    compute_override_penalty_bp [ovFull] [("e1", 100000)] 100000 =
      min (((latestPerEntity [ovFull]).map fun p =>
        overrideContribBp [("e1", 100000)] (Int.toNat 100000) p.1 p.2).sum) 7000 ∧
    (ovFull ∈ [ovFull] ∧ ovFull.entity_id = some "e1" ∧
      ∀ ov' ∈ [ovFull], ov'.entity_id = some "e1" →
        strLe ov'.created_at ovFull.created_at = true) :=
  ⟨claim_C7.2.1 [ovFull] [("e1", 100000)] 100000 (by decide),
   claim_C7.2.2.1 [ovFull] "e1" ovFull (by decide)⟩

theorem matchOfGo2_eq_some_iff (pos neg x : Tx) (l : List Tx) :
    matchOfGo2 pos neg l = some x ↔ l = [pos] ∧ x = neg := by
  rcases l with _ | ⟨p, _ | ⟨q, r⟩⟩
  · simp [matchOfGo2]
  · by_cases hp : p = pos
    · subst hp
      simp [matchOfGo2, eq_comm]
    · simp [matchOfGo2, hp]
  · simp [matchOfGo2]

theorem matchOf_eq_some_iff (P N : List Tx) (pos neg : Tx) :
    matchOf P N pos = some neg ↔
      negCandidates N pos = [neg] ∧ posCandidates P neg = [pos] := by
  unfold matchOf
  rcases hc : negCandidates N pos with _ | ⟨n1, _ | ⟨n2, r⟩⟩
  · simp [matchOfGo]
  · simp only [matchOfGo, matchOfGo2_eq_some_iff]
    constructor
    · rintro ⟨hpc, hneg⟩
      subst hneg
      exact ⟨rfl, hpc⟩
    · rintro ⟨heq, hpc⟩
      have : n1 = neg := by
        injection heq
      subst this
      exact ⟨hpc, rfl⟩
  · simp [matchOfGo]

theorem absKeys_go_mem (step : List Nat → Tx → List Nat)
    (hstep : step = fun ks t =>
      if ks.contains t.signed_amount_cents.natAbs then ks
      else ks ++ [t.signed_amount_cents.natAbs]) :
    ∀ (l : List Tx) (ks : List Nat) (a : Nat),
      a ∈ l.foldl step ks ↔
        a ∈ ks ∨ ∃ t ∈ l, t.signed_amount_cents.natAbs = a := by
  subst hstep
  intro l
  induction l with
  | nil => simp
  | cons x t ih =>
    intro ks a
    rw [List.foldl_cons, ih]
    constructor
    · rintro (hks | ht)
      · by_cases hc : ks.contains x.signed_amount_cents.natAbs
        · rw [if_pos hc] at hks
          exact Or.inl hks
        · rw [if_neg hc] at hks
          rcases List.mem_append.mp hks with h | h
          · exact Or.inl h
          · exact Or.inr ⟨x, List.mem_cons_self _ _, (List.mem_singleton.mp h).symm⟩
      · obtain ⟨u, hu, hua⟩ := ht
        exact Or.inr ⟨u, List.mem_cons_of_mem _ hu, hua⟩
    · rintro (hks | ⟨u, hu, hua⟩)
      · left
        by_cases hc : ks.contains x.signed_amount_cents.natAbs
        · rw [if_pos hc]; exact hks
        · rw [if_neg hc]; exact List.mem_append_left _ hks
      · rcases List.mem_cons.mp hu with heq | hut
        · subst heq
          left
          by_cases hc : ks.contains u.signed_amount_cents.natAbs
          · rw [if_pos hc]
            rw [List.contains_eq_any_beq] at hc
            rw [List.any_eq_true] at hc
            obtain ⟨b, hb, hbeq⟩ := hc
            rw [beq_iff_eq] at hbeq
            rw [← hua, hbeq]
            exact hb
          · rw [if_neg hc]
            exact List.mem_append_right _ (by simp [hua])
        · exact Or.inr ⟨u, hut, hua⟩

theorem absKeys_mem (l : List Tx) (a : Nat) :
    a ∈ absKeys l ↔ ∃ t ∈ l, t.signed_amount_cents.natAbs = a := by
  unfold absKeys
  rw [absKeys_go_mem _ rfl]
  simp

theorem mem_groupPairs_iff (g : List Tx) (pos neg : Tx) :
    (pos, neg) ∈ groupPairs g ↔
      pos ∈ g.filter (fun t => 0 < t.signed_amount_cents) ∧
      matchOf (g.filter fun t => 0 < t.signed_amount_cents)
        (g.filter fun t => t.signed_amount_cents < 0) pos = some neg := by
  unfold groupPairs
  rw [List.mem_filterMap]
  constructor
  · rintro ⟨x, hx, hmap⟩
    rw [Option.map_eq_some'] at hmap
    obtain ⟨n0, hm, heq⟩ := hmap
    have hx' : x = pos := congrArg Prod.fst heq
    have hn' : n0 = neg := congrArg Prod.snd heq
    subst hx'; subst hn'
    exact ⟨hx, hm⟩
  · rintro ⟨hpos, hm⟩
    exact ⟨pos, hpos, by rw [hm]; rfl⟩

theorem mem_matchedPairs_iff (l : List Tx) (pos neg : Tx) :
    (pos, neg) ∈ matchedPairs l ↔
      pos ∈ l ∧ 0 < pos.signed_amount_cents ∧
      matchOf
        ((groupOf l pos.signed_amount_cents.natAbs).filter fun t =>
          0 < t.signed_amount_cents)
        ((groupOf l pos.signed_amount_cents.natAbs).filter fun t =>
          t.signed_amount_cents < 0)
        pos = some neg := by
  unfold matchedPairs
  rw [List.mem_flatMap]
  constructor
  · rintro ⟨a, _, hg⟩
    rw [mem_groupPairs_iff] at hg
    obtain ⟨hpos, hm⟩ := hg
    rw [List.mem_filter] at hpos
    obtain ⟨hpg, hposamt⟩ := hpos
    have hpg' := hpg
    unfold groupOf at hpg'
    rw [List.mem_filter] at hpg'
    obtain ⟨hl, habs⟩ := hpg'
    rw [decide_eq_true_eq] at habs
    subst habs
    exact ⟨hl, by simpa using hposamt, hm⟩
  · rintro ⟨hl, hamt, hm⟩
    refine ⟨pos.signed_amount_cents.natAbs, (absKeys_mem l _).mpr ⟨pos, hl, rfl⟩, ?_⟩
    rw [mem_groupPairs_iff]
    refine ⟨?_, hm⟩
    rw [List.mem_filter]
    constructor
    · unfold groupOf
      rw [List.mem_filter]
      exact ⟨hl, by simp⟩
    · simpa using hamt

theorem match_transfers_snd (l : List Tx) :
    (match_transfers l).2 = (matchedPairs l).map fun pr => mkLink pr.1 pr.2 := rfl

/-- C5: a `TransferLink` is emitted only for a positive and a negative
transaction of equal absolute amount, on different accounts, within 2
calendar days, each the unique such candidate of the other; and on the
concrete ambiguity scenario — one −500-cent transaction and two
+500-cent candidates inside the window — zero links are produced, all
three transactions keep `is_transfer = false`, and all three classify to
a role other than `other` and `transfer`. -/
theorem claim_C5 :
    (∀ (transactions : List Tx) (link : Link),
      link ∈ (match_transfers transactions).2 →
      ∃ pos neg,
        pos ∈ transactions ∧ neg ∈ transactions ∧ link = mkLink pos neg ∧
        0 < pos.signed_amount_cents ∧ neg.signed_amount_cents < 0 ∧
        neg.signed_amount_cents.natAbs = pos.signed_amount_cents.natAbs ∧
        link.abs_amount_cents = pos.signed_amount_cents.natAbs ∧
        neg.account_id ≠ pos.account_id ∧
        date_diff_days neg.txn_date pos.txn_date ≤ 2 ∧
        (∀ n ∈ transactions, n.signed_amount_cents < 0 →
          n.signed_amount_cents.natAbs = pos.signed_amount_cents.natAbs →
          n.account_id ≠ pos.account_id →
          date_diff_days n.txn_date pos.txn_date ≤ 2 → n = neg) ∧
        (∀ p ∈ transactions, 0 < p.signed_amount_cents →
          p.signed_amount_cents.natAbs = pos.signed_amount_cents.natAbs →
          p.account_id ≠ neg.account_id →
          date_diff_days p.txn_date neg.txn_date ≤ 2 → p = pos)) ∧
    (match_transfers [txNeg500, txPosB500, txPosC500]).2 = [] ∧
    (match_transfers [txNeg500, txPosB500, txPosC500]).1 =
      [txNeg500, txPosB500, txPosC500] ∧
    (classifyAll [txNeg500, txPosB500, txPosC500]).all
      (fun t => !t.is_transfer && t.role ≠ some "other" && t.role ≠ some "transfer") =
      true := by
  refine ⟨?_, by rfl, by rfl, by rfl⟩
  intro transactions link hlink
  rw [match_transfers_snd, List.mem_map] at hlink
  obtain ⟨⟨pos, neg⟩, hpair, hmk⟩ := hlink
  rw [mem_matchedPairs_iff] at hpair
  obtain ⟨hposl, hposamt, hm⟩ := hpair
  rw [matchOf_eq_some_iff] at hm
  obtain ⟨hneg, hpos⟩ := hm
  have hnegself : neg ∈ negCandidates
      ((groupOf transactions pos.signed_amount_cents.natAbs).filter fun t =>
        t.signed_amount_cents < 0) pos := by
    rw [hneg]; exact List.mem_singleton.mpr rfl
  unfold negCandidates at hnegself
  rw [List.mem_filter] at hnegself
  obtain ⟨hnegng, hnegpred⟩ := hnegself
  rw [List.mem_filter] at hnegng
  obtain ⟨hneggrp, hnegamt⟩ := hnegng
  unfold groupOf at hneggrp
  rw [List.mem_filter] at hneggrp
  obtain ⟨hnegl, hnegabs⟩ := hneggrp
  rw [decide_eq_true_eq] at hnegabs
  rw [decide_eq_true_eq] at hnegamt
  rw [Bool.and_eq_true, decide_eq_true_eq, decide_eq_true_eq] at hnegpred
  refine ⟨pos, neg, hposl, hnegl, hmk.symm, hposamt, hnegamt, hnegabs, ?_,
    hnegpred.1, hnegpred.2, ?_, ?_⟩
  · rw [← hmk]; rfl
  · intro n hnl hnneg hnabs hnacct hndiff
    have : n ∈ negCandidates
        ((groupOf transactions pos.signed_amount_cents.natAbs).filter fun t =>
          t.signed_amount_cents < 0) pos := by
      unfold negCandidates
      rw [List.mem_filter]
      refine ⟨?_, ?_⟩
      · rw [List.mem_filter]
        refine ⟨?_, by simpa using hnneg⟩
        unfold groupOf
        rw [List.mem_filter]
        exact ⟨hnl, by simpa using hnabs⟩
      · rw [Bool.and_eq_true, decide_eq_true_eq, decide_eq_true_eq]
        exact ⟨hnacct, hndiff⟩
    rw [hneg] at this
    exact List.mem_singleton.mp this
  · intro p hpl hppos hpabs hpacct hpdiff
    have : p ∈ posCandidates
        ((groupOf transactions pos.signed_amount_cents.natAbs).filter fun t =>
          0 < t.signed_amount_cents) neg := by
      unfold posCandidates
      rw [List.mem_filter]
      refine ⟨?_, ?_⟩
      · rw [List.mem_filter]
        refine ⟨?_, by simpa using hppos⟩
        unfold groupOf
        rw [List.mem_filter]
        exact ⟨hpl, by simpa using hpabs⟩
      · rw [Bool.and_eq_true, decide_eq_true_eq, decide_eq_true_eq]
        exact ⟨hpacct, hpdiff⟩
    rw [hpos] at this
    exact List.mem_singleton.mp this

/-- C5 witness: the soundness theorem applied to the link produced by a
genuine unambiguous transfer pair. -/
theorem claim_C5_witness :
    ∃ pos neg,
      pos ∈ [txOut500, txIn500] ∧ neg ∈ [txOut500, txIn500] ∧
      mkLink txIn500 txOut500 = mkLink pos neg ∧
      0 < pos.signed_amount_cents ∧ neg.signed_amount_cents < 0 ∧
      neg.signed_amount_cents.natAbs = pos.signed_amount_cents.natAbs ∧
      (mkLink txIn500 txOut500).abs_amount_cents = pos.signed_amount_cents.natAbs ∧
      neg.account_id ≠ pos.account_id ∧
      date_diff_days neg.txn_date pos.txn_date ≤ 2 ∧
      (∀ n ∈ [txOut500, txIn500], n.signed_amount_cents < 0 →
        n.signed_amount_cents.natAbs = pos.signed_amount_cents.natAbs →
        n.account_id ≠ pos.account_id →
        date_diff_days n.txn_date pos.txn_date ≤ 2 → n = neg) ∧
      (∀ p ∈ [txOut500, txIn500], 0 < p.signed_amount_cents →
        p.signed_amount_cents.natAbs = pos.signed_amount_cents.natAbs →
        p.account_id ≠ neg.account_id →
        date_diff_days p.txn_date neg.txn_date ≤ 2 → p = pos) :=
  claim_C5.1 [txOut500, txIn500] (mkLink txIn500 txOut500) (by decide)

/-- C8: starting from the same transaction set, applying a weight-1.0
override and then a later override on the same entity whose `new_value`
restores the original effective role (derived weight 0.0) yields a run
whose `final_confidence_bp` equals the no-override run's, a snapshot
payload whose `financial_state_hash` equals the no-override payload's,
and a full hashed payload that differs from the no-override one (so
`sha256_hash` differs), because `overrides_applied` enters only the full
payload and not the financial-state payload. -/
theorem claim_C8 :
    ∀ (deal_id currency : String) (txs : List Tx) (accrual : Accrual) (u1 u2 : String)
      (e : String) (ov1 ov2 : Override),
      e ≠ "" →
      ov1.entity_id = some e → ov2.entity_id = some e →
      ov1.weight = "1.0" → ov2.weight = "0.0" →
      strLe ov2.created_at ov1.created_at = false →
      (exportPayload deal_id currency txs [ov1, ov2] accrual u1).1.final_confidence_bp =
        (exportPayload deal_id currency txs [] accrual u2).1.final_confidence_bp ∧
      (exportPayload deal_id currency txs [ov1, ov2] accrual u1).2.financial_state_hash =
        (exportPayload deal_id currency txs [] accrual u2).2.financial_state_hash ∧
      (exportPayload deal_id currency txs [ov1, ov2] accrual u1).2 ≠
        (exportPayload deal_id currency txs [] accrual u2).2 := by
  intro deal_id currency txs accrual u1 u2 e ov1 ov2 hne hk1 hk2 hw1 hw2 hlt
  have hsort : sortOverridesDesc [ov1, ov2] = [ov2, ov1] := by
    unfold sortOverridesDesc
    simp only [List.insertionSort, List.orderedInsert]
    rw [if_neg (by simp [hlt])]
  have hstep1 : latestStep [] ov2 = [(e, ov2)] := by
    unfold latestStep
    rw [hk2]
    simp only [latestStepGo]
    rw [if_pos (by simp [hne])]
    rfl
  have hstep2 : latestStep [(e, ov2)] ov1 = [(e, ov2)] := by
    unfold latestStep
    rw [hk1]
    simp only [latestStepGo]
    rw [if_neg (by simp)]
  have hlatest : latestPerEntity [ov1, ov2] = [(e, ov2)] := by
    unfold latestPerEntity
    rw [hsort]
    simp only [List.foldl_cons, List.foldl_nil]
    rw [hstep1, hstep2]
  have hwbp : weight_to_bp ov2.weight = 0 := by
    rw [hw2]
    decide
  have hcontrib : ∀ (ev : List (String × Int)) (tot : Nat),
      overrideContribBp ev tot e ov2 = 0 := by
    intro ev tot
    unfold overrideContribBp
    rw [hwbp]
    dsimp only
    split
    · rfl
    · simp
  have hpen : ∀ (ev : List (String × Int)) (t : Int),
      compute_override_penalty_bp [ov1, ov2] ev t =
        compute_override_penalty_bp [] ev t := by
    intro ev t
    unfold compute_override_penalty_bp
    by_cases ht : t ≤ 0
    · rw [if_pos ht, if_pos ht]
    · rw [if_neg ht, if_neg ht, hlatest]
      have hnil : latestPerEntity [] = [] := rfl
      rw [hnil]
      simp only [List.foldl_cons, List.foldl_nil, Nat.zero_add]
      rw [hcontrib]
  refine ⟨?_, ?_, ?_⟩
  · dsimp only [exportPayload, run_pipeline]
    rw [hpen]
  · dsimp only [exportPayload, run_pipeline, build_pds_payload,
      build_financial_state_payload, compute_financial_state_hash]
    rw [hpen]
  · intro hpay
    have hov := congrArg PdsPayload.overrides_applied hpay
    dsimp only [exportPayload, run_pipeline, build_pds_payload] at hov
    have hlen := congrArg List.length hov
    rw [(List.perm_insertionSort _ [ov1, ov2]).length_eq] at hlen
    simp at hlen

/-- C8 witness: the revert scenario at a concrete one-transaction deal
with a full-volume entity; the two hypothetical overrides are the
concrete apply/revert pair. -/
theorem claim_C8_witness :
    (exportPayload "d1" "USD" [txRevert] [ovApply, ovRevert] accrualAbsent "u1").1.final_confidence_bp =
      (exportPayload "d1" "USD" [txRevert] [] accrualAbsent "u2").1.final_confidence_bp ∧
    (exportPayload "d1" "USD" [txRevert] [ovApply, ovRevert] accrualAbsent "u1").2.financial_state_hash =
      (exportPayload "d1" "USD" [txRevert] [] accrualAbsent "u2").2.financial_state_hash ∧
    (exportPayload "d1" "USD" [txRevert] [ovApply, ovRevert] accrualAbsent "u1").2 ≠
      (exportPayload "d1" "USD" [txRevert] [] accrualAbsent "u2").2 :=
  claim_C8 "d1" "USD" [txRevert] accrualAbsent "u1" "u2" "d1|client pay" ovApply ovRevert
    (by decide) (by decide) (by decide) (by decide) (by decide) (by decide)

/-- C2 counterexample: two canonical rows that differ only in the casing
of their raw descriptor share a `txn_id` (the hash basis uses the
normalized descriptor), and swapping them changes
`raw_transaction_hash`: the pipeline sorts by `txn_id` alone with a
stable sort, so the tied rows keep their input order and the canonical
serialization differs.  Both rows carry exactly the `txn_id` that
`compute_txn_id` derives for document `doc1`. -/
theorem claim_C2_counterexample :
    txDupA.txn_id = compute_txn_id txDupA "doc1" ∧
    txDupB.txn_id = compute_txn_id txDupB "doc1" ∧
    txDupA ≠ txDupB ∧
    List.Perm [txDupA, txDupB] [txDupB, txDupA] ∧
    (run_pipeline "d1" [txDupA, txDupB] [] accrualAbsent "u").1.raw_transaction_hash ≠
      (run_pipeline "d1" [txDupB, txDupA] [] accrualAbsent "u").1.raw_transaction_hash := by
  refine ⟨by decide, by decide, by decide, by decide, by decide⟩

/-! Permutation invariance of the transfer-matching decision: the
candidate filters are computed over whole groups, so the matched pairs
are determined by the multiset of transactions. -/

theorem filter_singleton_of_perm {α : Type} (p : α → Bool) {l l' : List α}
    (h : l.Perm l') {x : α} (hf : l.filter p = [x]) : l'.filter p = [x] := by
  have hp := List.Perm.filter p h
  rw [hf] at hp
  exact List.perm_singleton.mp hp.symm

theorem matchOf_perm {P P' N N' : List Tx} (hP : P.Perm P') (hN : N.Perm N')
    (pos neg : Tx) :
    matchOf P N pos = some neg ↔ matchOf P' N' pos = some neg := by
  rw [matchOf_eq_some_iff, matchOf_eq_some_iff]
  unfold negCandidates posCandidates
  exact ⟨fun ⟨h1, h2⟩ => ⟨filter_singleton_of_perm _ hN h1, filter_singleton_of_perm _ hP h2⟩,
    fun ⟨h1, h2⟩ => ⟨filter_singleton_of_perm _ hN.symm h1, filter_singleton_of_perm _ hP.symm h2⟩⟩

theorem mem_matchedPairs_perm {l l' : List Tx} (h : l.Perm l') (pos neg : Tx) :
    (pos, neg) ∈ matchedPairs l ↔ (pos, neg) ∈ matchedPairs l' := by
  rw [mem_matchedPairs_iff, mem_matchedPairs_iff]
  have hgrp : (groupOf l pos.signed_amount_cents.natAbs).Perm
      (groupOf l' pos.signed_amount_cents.natAbs) := List.Perm.filter _ h
  constructor
  · rintro ⟨hl, hamt, hm⟩
    exact ⟨h.mem_iff.mp hl, hamt,
      (matchOf_perm (List.Perm.filter _ hgrp) (List.Perm.filter _ hgrp) pos neg).mp hm⟩
  · rintro ⟨hl, hamt, hm⟩
    exact ⟨h.mem_iff.mpr hl, hamt,
      (matchOf_perm (List.Perm.filter _ hgrp) (List.Perm.filter _ hgrp) pos neg).mpr hm⟩

theorem matchedPairs_any_perm {l l' : List Tx} (h : l.Perm l') (t : Tx) :
    (matchedPairs l).any (fun pr => pr.1 = t || pr.2 = t) =
    (matchedPairs l').any (fun pr => pr.1 = t || pr.2 = t) := by
  rw [Bool.eq_iff_iff, List.any_eq_true, List.any_eq_true]
  constructor
  · rintro ⟨⟨pos, neg⟩, hpr, hc⟩
    exact ⟨(pos, neg), (mem_matchedPairs_perm h pos neg).mp hpr, hc⟩
  · rintro ⟨⟨pos, neg⟩, hpr, hc⟩
    exact ⟨(pos, neg), (mem_matchedPairs_perm h pos neg).mpr hpr, hc⟩

theorem processed_eq (l : List Tx) :
    classifyAll (match_transfers l).1 = l.map (fun t =>
      let ft := if (matchedPairs l).any (fun pr => pr.1 = t || pr.2 = t) then
        { t with is_transfer := true } else t
      { ft with role := some (classify ft) }) := by
  show (l.map _).map _ = _
  rw [List.map_map]
  rfl

theorem processed_fun_congr {l l' : List Tx} (h : l.Perm l') :
    (fun t : Tx =>
      let ft := if (matchedPairs l).any (fun pr => pr.1 = t || pr.2 = t) then
        { t with is_transfer := true } else t
      { ft with role := some (classify ft) }) =
    (fun t : Tx =>
      let ft := if (matchedPairs l').any (fun pr => pr.1 = t || pr.2 = t) then
        { t with is_transfer := true } else t
      { ft with role := some (classify ft) }) := by
  funext t
  rw [matchedPairs_any_perm h t]

theorem processed_perm {l l' : List Tx} (h : l.Perm l') :
    (classifyAll (match_transfers l).1).Perm (classifyAll (match_transfers l').1) := by
  rw [processed_eq, processed_eq, ← processed_fun_congr h]
  exact h.map _

theorem processedFun_txn_id (l : List Tx) (t : Tx) :
    ((fun t : Tx =>
      let ft := if (matchedPairs l).any (fun pr => pr.1 = t || pr.2 = t) then
        { t with is_transfer := true } else t
      { ft with role := some (classify ft) }) t).txn_id = t.txn_id := by
  dsimp only
  split <;> rfl

theorem processedFun_txn_date (l : List Tx) (t : Tx) :
    ((fun t : Tx =>
      let ft := if (matchedPairs l).any (fun pr => pr.1 = t || pr.2 = t) then
        { t with is_transfer := true } else t
      { ft with role := some (classify ft) }) t).txn_date = t.txn_date := by
  dsimp only
  split <;> rfl

theorem processedFun_nd (l : List Tx) (t : Tx) :
    ((fun t : Tx =>
      let ft := if (matchedPairs l).any (fun pr => pr.1 = t || pr.2 = t) then
        { t with is_transfer := true } else t
      { ft with role := some (classify ft) }) t).normalized_descriptor =
      t.normalized_descriptor := by
  dsimp only
  split <;> rfl

theorem processed_sort_eq {l l' : List Tx} (h : l.Perm l')
    (hinj : ∀ x ∈ l, ∀ y ∈ l, x.txn_id = y.txn_id → x = y) :
    List.insertionSort (fun a b : Tx => strLe a.txn_id b.txn_id = true)
      (classifyAll (match_transfers l).1) =
    List.insertionSort (fun a b : Tx => strLe a.txn_id b.txn_id = true)
      (classifyAll (match_transfers l').1) := by
  apply eq_of_perm_of_sorted_key (fun t : Tx => t.txn_id) strLe strLe_antisymm
  · exact ((List.perm_insertionSort _ _).trans (processed_perm h)).trans
      (List.perm_insertionSort _ _).symm
  · exact sorted_insertionSort_key (fun t : Tx => t.txn_id) strLe strLe_total strLe_trans _
  · exact sorted_insertionSort_key (fun t : Tx => t.txn_id) strLe strLe_total strLe_trans _
  · intro x hx y hy hk
    have hx' : x ∈ classifyAll (match_transfers l).1 :=
      (List.perm_insertionSort _ _).mem_iff.mp hx
    have hy' : y ∈ classifyAll (match_transfers l).1 :=
      (List.perm_insertionSort _ _).mem_iff.mp hy
    rw [processed_eq] at hx' hy'
    obtain ⟨a, ha, hax⟩ := List.mem_map.mp hx'
    obtain ⟨b, hb, hby⟩ := List.mem_map.mp hy'
    have hat : x.txn_id = a.txn_id := by rw [← hax]; exact processedFun_txn_id l a
    have hbt : y.txn_id = b.txn_id := by rw [← hby]; exact processedFun_txn_id l b
    have hab : a = b := hinj a ha b hb (by rw [← hat, ← hbt, hk])
    rw [← hax, ← hby, hab]

theorem nonTransferAbsTotal_perm {P P' : List Tx} (h : P.Perm P') :
    nonTransferAbsTotal P = nonTransferAbsTotal P' :=
  ((h.filter _).map _).sum_eq

theorem classifiedAbsTotal_perm {P P' : List Tx} (h : P.Perm P') :
    classifiedAbsTotal P = classifiedAbsTotal P' :=
  ((h.filter _).map _).sum_eq

theorem bankOperationalInflow_perm {P P' : List Tx} (h : P.Perm P') :
    bankOperationalInflow P = bankOperationalInflow P' :=
  ((h.filter _).map _).sum_eq

theorem sortDates_eq {L L' : List Date} (h : L.Perm L') :
    List.insertionSort (fun a b => dateLe a b = true) L =
    List.insertionSort (fun a b => dateLe a b = true) L' :=
  eq_of_perm_of_sorted_key (fun d : Date => d) dateLe dateLe_antisymm _ _
    (((List.perm_insertionSort _ _).trans h).trans (List.perm_insertionSort _ _).symm)
    (sorted_insertionSort_key (fun d : Date => d) dateLe dateLe_total dateLe_trans _)
    (sorted_insertionSort_key (fun d : Date => d) dateLe dateLe_total dateLe_trans _)
    (fun x _ y _ hk => hk)

theorem missing_months_perm {L L' : List Date} (h : L.Perm L') :
    missing_months L = missing_months L' := by
  unfold missing_months
  rw [sortDates_eq h]

theorem dateLe_refl (a : Date) : dateLe a a = true := by
  rw [dateLe_iff]
  omega

theorem dateMin_le_left (a b : Date) : dateLe (dateMin a b) a = true := by
  unfold dateMin
  split
  · exact dateLe_refl a
  · rename_i hab
    rw [Bool.not_eq_true] at hab
    rcases dateLe_total a b with h | h
    · exact absurd h (by rw [hab]; exact Bool.false_ne_true)
    · exact h

theorem dateMin_le_right (a b : Date) : dateLe (dateMin a b) b = true := by
  unfold dateMin
  split
  · assumption
  · exact dateLe_refl b

theorem dateMin_mem (a b : Date) : dateMin a b = a ∨ dateMin a b = b := by
  unfold dateMin
  split
  · exact Or.inl rfl
  · exact Or.inr rfl

theorem dateMax_ge_left (a b : Date) : dateLe a (dateMax a b) = true := by
  unfold dateMax
  split
  · assumption
  · exact dateLe_refl a

theorem dateMax_ge_right (a b : Date) : dateLe b (dateMax a b) = true := by
  unfold dateMax
  split
  · exact dateLe_refl b
  · rename_i hab
    rw [Bool.not_eq_true] at hab
    rcases dateLe_total a b with h | h
    · exact absurd h (by rw [hab]; exact Bool.false_ne_true)
    · exact h

theorem dateMax_mem (a b : Date) : dateMax a b = a ∨ dateMax a b = b := by
  unfold dateMax
  split
  · exact Or.inr rfl
  · exact Or.inl rfl

theorem foldl_dateMin_spec :
    ∀ (ds : List Date) (d : Date),
      ds.foldl dateMin d ∈ d :: ds ∧
      ∀ x ∈ d :: ds, dateLe (ds.foldl dateMin d) x = true := by
  intro ds
  induction ds with
  | nil =>
    intro d
    refine ⟨List.mem_cons_self _ _, ?_⟩
    intro x hx
    rcases List.mem_cons.mp hx with heq | hn
    · subst heq; exact dateLe_refl x
    · exact absurd hn (List.not_mem_nil x)
  | cons e es ih =>
    intro d
    obtain ⟨hmem, hlb⟩ := ih (dateMin d e)
    rw [List.foldl_cons]
    constructor
    · rcases List.mem_cons.mp hmem with heq | hes
      · rcases dateMin_mem d e with hm | hm
        · rw [heq, hm]; exact List.mem_cons_self _ _
        · rw [heq, hm]; exact List.mem_cons_of_mem _ (List.mem_cons_self _ _)
      · exact List.mem_cons_of_mem _ (List.mem_cons_of_mem _ hes)
    · intro x hx
      have hres : dateLe (es.foldl dateMin (dateMin d e)) (dateMin d e) = true :=
        hlb _ (List.mem_cons_self _ _)
      rcases List.mem_cons.mp hx with heq | hx'
      · rw [heq]
        exact dateLe_trans _ _ _ hres (dateMin_le_left d e)
      · rcases List.mem_cons.mp hx' with heq | hx''
        · rw [heq]
          exact dateLe_trans _ _ _ hres (dateMin_le_right d e)
        · exact hlb x (List.mem_cons_of_mem _ hx'')

theorem foldl_dateMax_spec :
    ∀ (ds : List Date) (d : Date),
      ds.foldl dateMax d ∈ d :: ds ∧
      ∀ x ∈ d :: ds, dateLe x (ds.foldl dateMax d) = true := by
  intro ds
  induction ds with
  | nil =>
    intro d
    refine ⟨List.mem_cons_self _ _, ?_⟩
    intro x hx
    rcases List.mem_cons.mp hx with heq | hn
    · subst heq; exact dateLe_refl x
    · exact absurd hn (List.not_mem_nil x)
  | cons e es ih =>
    intro d
    obtain ⟨hmem, hub⟩ := ih (dateMax d e)
    rw [List.foldl_cons]
    constructor
    · rcases List.mem_cons.mp hmem with heq | hes
      · rcases dateMax_mem d e with hm | hm
        · rw [heq, hm]; exact List.mem_cons_self _ _
        · rw [heq, hm]; exact List.mem_cons_of_mem _ (List.mem_cons_self _ _)
      · exact List.mem_cons_of_mem _ (List.mem_cons_of_mem _ hes)
    · intro x hx
      have hres : dateLe (dateMax d e) (es.foldl dateMax (dateMax d e)) = true :=
        hub _ (List.mem_cons_self _ _)
      rcases List.mem_cons.mp hx with heq | hx'
      · rw [heq]
        exact dateLe_trans _ _ _ (dateMax_ge_left d e) hres
      · rcases List.mem_cons.mp hx' with heq | hx''
        · rw [heq]
          exact dateLe_trans _ _ _ (dateMax_ge_right d e) hres
        · exact hub x (List.mem_cons_of_mem _ hx'')

theorem activePeriodDates_perm {P P' : List Tx} (h : P.Perm P') :
    activePeriodDates P = activePeriodDates P' := by
  unfold activePeriodDates
  have hm : (P.map fun t => t.txn_date).Perm (P'.map fun t => t.txn_date) := h.map _
  rcases hL : P.map (fun t => t.txn_date) with _ | ⟨d, ds⟩ <;>
    rcases hL' : P'.map (fun t => t.txn_date) with _ | ⟨d', ds'⟩
  · rw [hL, hL']
  · rw [hL, hL'] at hm
    exact absurd (List.Perm.nil_eq hm) (by simp)
  · rw [hL, hL'] at hm
    exact absurd (List.Perm.eq_nil hm) (by simp)
  · rw [hL, hL'] at hm
    rw [hL, hL']
    show some (ds.foldl dateMin d, ds.foldl dateMax d) =
      some (ds'.foldl dateMin d', ds'.foldl dateMax d')
    obtain ⟨hminmem, hminlb⟩ := foldl_dateMin_spec ds d
    obtain ⟨hminmem', hminlb'⟩ := foldl_dateMin_spec ds' d'
    obtain ⟨hmaxmem, hmaxub⟩ := foldl_dateMax_spec ds d
    obtain ⟨hmaxmem', hmaxub'⟩ := foldl_dateMax_spec ds' d'
    have hmineq : ds.foldl dateMin d = ds'.foldl dateMin d' :=
      dateLe_antisymm _ _
        (hminlb _ (hm.mem_iff.mpr hminmem'))
        (hminlb' _ (hm.mem_iff.mp hminmem))
    have hmaxeq : ds.foldl dateMax d = ds'.foldl dateMax d' :=
      dateLe_antisymm _ _
        (hmaxub' _ (hm.mem_iff.mp hmaxmem))
        (hmaxub _ (hm.mem_iff.mpr hmaxmem'))
    rw [hmineq, hmaxeq]

theorem reconciliation_congr {P P' : List Tx} (hap : activePeriodDates P = activePeriodDates P')
    (accrual : Accrual) (inflow : Int) :
    reconciliation P accrual inflow = reconciliation P' accrual inflow := by
  unfold reconciliation
  rw [hap]

theorem compute_metrics_perm {P P' : List Tx} (h : P.Perm P') (accrual : Accrual) :
    compute_metrics P accrual = compute_metrics P' accrual := by
  have h5 : reconciliation P = reconciliation P' :=
    funext fun acc => funext fun i => reconciliation_congr (activePeriodDates_perm h) acc i
  unfold compute_metrics
  rw [nonTransferAbsTotal_perm h, classifiedAbsTotal_perm h, bankOperationalInflow_perm h,
    missing_months_perm (h.map _), h5]

theorem find_map_set {α : Type} (k : String) (v : α) :
    ∀ m : List (String × α),
      (m.map (fun p => if p.1 = k then (k, v) else p)).find? (fun p => p.1 = k) =
        if m.any (fun p => p.1 = k) then some (k, v) else none := by
  intro m
  induction m with
  | nil => rfl
  | cons p t ih =>
    rw [List.map_cons, List.any_cons]
    by_cases hp : p.1 = k
    · rw [if_pos hp, List.find?_cons_of_pos _ (by simp)]
      rw [if_pos (by simp [hp])]
    · rw [if_neg hp, List.find?_cons_of_neg _ (by simp [hp]), ih]
      have hd : (decide (p.1 = k) : Bool) = false := by simp [hp]
      rw [hd, Bool.false_or]

theorem find_map_ne {α : Type} (k k' : String) (v : α) (hne : k' ≠ k) :
    ∀ m : List (String × α),
      (m.map (fun p => if p.1 = k then (k, v) else p)).find? (fun p => p.1 = k') =
        m.find? (fun p => p.1 = k') := by
  intro m
  induction m with
  | nil => rfl
  | cons p t ih =>
    rw [List.map_cons]
    by_cases hp : p.1 = k
    · rw [if_pos hp, List.find?_cons_of_neg _ (by simp [Ne.symm hne]),
        List.find?_cons_of_neg _ (by simp [hp, Ne.symm hne])]
      exact ih
    · rw [if_neg hp]
      by_cases hp' : p.1 = k'
      · rw [List.find?_cons_of_pos _ (by simp [hp']), List.find?_cons_of_pos _ (by simp [hp'])]
      · rw [List.find?_cons_of_neg _ (by simp [hp']), List.find?_cons_of_neg _ (by simp [hp'])]
        exact ih

theorem dictGetD_dictSet_self {α : Type} (m : List (String × α)) (k : String) (v d : α) :
    dictGetD (dictSet m k v) k d = v := by
  unfold dictSet dictGetD
  by_cases hm : m.any (fun p => p.1 = k) = true
  · rw [if_pos hm, find_map_set, if_pos hm]
  · rw [if_neg hm, List.find?_append]
    have hnone : m.find? (fun p => p.1 = k) = none := by
      rw [List.find?_eq_none]
      intro x hx hpx
      exact hm (List.any_eq_true.mpr ⟨x, hx, hpx⟩)
    rw [hnone, List.find?_cons_of_pos _ (by simp)]
    rfl

theorem dictGetD_dictSet_ne {α : Type} (m : List (String × α)) (k k' : String) (v d : α)
    (hne : k' ≠ k) : dictGetD (dictSet m k v) k' d = dictGetD m k' d := by
  unfold dictSet dictGetD
  by_cases hm : m.any (fun p => p.1 = k) = true
  · rw [if_pos hm, find_map_ne k k' v hne]
  · rw [if_neg hm, List.find?_append]
    have hlast : ([(k, v)] : List (String × α)).find? (fun p => p.1 = k') = none := by
      rw [List.find?_eq_none]
      intro x hx hpx
      rw [List.mem_singleton.mp hx] at hpx
      exact Ne.symm hne (of_decide_eq_true hpx)
    rw [hlast, Option.or_none]

theorem entityValues_lookup (tem : List (String × String)) :
    ∀ (txs : List Tx) (acc : List (String × Int)) (k : String),
      dictGetD (txs.foldl (fun acc tx =>
        let eid := dictGetD tem tx.txn_id ""
        dictSet acc eid (dictGetD acc eid 0 + |tx.signed_amount_cents|)) acc) k 0 =
      dictGetD acc k 0 +
        ((txs.filter fun t => dictGetD tem t.txn_id "" = k).map
          fun t => |t.signed_amount_cents|).sum := by
  intro txs
  induction txs with
  | nil =>
    intro acc k
    simp
  | cons x t ih =>
    intro acc k
    rw [List.foldl_cons, ih]
    dsimp only
    by_cases hx : dictGetD tem x.txn_id "" = k
    · rw [hx, dictGetD_dictSet_self,
        List.filter_cons_of_pos (by simp [hx]), List.map_cons, List.sum_cons]
      omega
    · rw [dictGetD_dictSet_ne _ _ _ _ _ (fun h => hx h.symm),
        List.filter_cons_of_neg (by simp [hx])]

theorem compute_override_penalty_congr (ovs : List Override) (evA evB : List (String × Int))
    (t : Int) (h : ∀ k, dictGetD evA k 0 = dictGetD evB k 0) :
    compute_override_penalty_bp ovs evA t = compute_override_penalty_bp ovs evB t := by
  unfold compute_override_penalty_bp
  by_cases ht : t ≤ 0
  · rw [if_pos ht, if_pos ht]
  · rw [if_neg ht, if_neg ht]
    have hc : ∀ (e : String) (ov : Override),
        overrideContribBp evA t.toNat e ov = overrideContribBp evB t.toNat e ov := by
      intro e ov
      unfold overrideContribBp
      rw [h e]
    have hfold : ∀ (l : List (String × Override)) (acc : Nat),
        l.foldl (fun acc p => acc + overrideContribBp evA t.toNat p.1 p.2) acc =
        l.foldl (fun acc p => acc + overrideContribBp evB t.toNat p.1 p.2) acc := by
      intro l
      induction l with
      | nil => intro acc; rfl
      | cons p l ih =>
        intro acc
        rw [List.foldl_cons, List.foldl_cons, hc, ih]
    show min (List.foldl (fun acc p => acc + overrideContribBp evA t.toNat p.1 p.2) 0
        (latestPerEntity ovs)) 7000 =
      min (List.foldl (fun acc p => acc + overrideContribBp evB t.toNat p.1 p.2) 0
        (latestPerEntity ovs)) 7000
    rw [hfold]

theorem dictGet_some_getD {α : Type} {m : List (String × α)} {k : String} {e : α}
    (h : dictGet m k = some e) (d : α) : dictGetD m k d = e := by
  unfold dictGet at h
  rw [Option.map_eq_some'] at h
  obtain ⟨p, hp, hpe⟩ := h
  unfold dictGetD
  rw [hp]
  exact hpe

theorem mem_dictSet {α : Type} {p : String × α} {m : List (String × α)} {k : String} {v : α}
    (h : p ∈ dictSet m k v) : p = (k, v) ∨ p ∈ m := by
  unfold dictSet at h
  split at h
  · obtain ⟨q, hq, hqp⟩ := List.mem_map.mp h
    by_cases hk : q.1 = k
    · rw [if_pos hk] at hqp
      exact Or.inl hqp.symm
    · rw [if_neg hk] at hqp
      exact Or.inr (hqp ▸ hq)
  · rcases List.mem_append.mp h with hm | hs
    · exact Or.inr hm
    · exact Or.inl (List.mem_singleton.mp hs)

theorem buildStepGo_name_inv (deal_id : String)
    (st : List (String × String) × List Entity × List (String × String)) (tx : Tx)
    (nm : String) (o : Option String)
    (h : ∀ p ∈ st.1, p.2 = entityIdOf deal_id p.1) :
    ∀ p ∈ (buildEntitiesStepGo deal_id st tx nm o).1, p.2 = entityIdOf deal_id p.1 := by
  cases o with
  | some e => exact h
  | none =>
    intro p hp
    rcases mem_dictSet hp with heq | hm
    · rw [heq]
    · exact h p hm

theorem buildStepGo_tem (deal_id : String)
    (st : List (String × String) × List Entity × List (String × String)) (tx : Tx)
    (nm : String) (o : Option String) :
    (buildEntitiesStepGo deal_id st tx nm o).2.2 = st.2.2 := by
  cases o <;> rfl

theorem buildStepGo_name_lookup (deal_id : String)
    (st : List (String × String) × List Entity × List (String × String)) (tx : Tx)
    (nm : String) (h : ∀ p ∈ st.1, p.2 = entityIdOf deal_id p.1) :
    dictGetD (buildEntitiesStepGo deal_id st tx nm (dictGet st.1 nm)).1 nm "" =
      entityIdOf deal_id nm := by
  cases hq : dictGet st.1 nm with
  | some e =>
    show dictGetD st.1 nm "" = _
    rw [dictGet_some_getD hq]
    unfold dictGet at hq
    rw [Option.map_eq_some'] at hq
    obtain ⟨p, hp, hpe⟩ := hq
    have hmem := List.mem_of_find?_eq_some hp
    have hkeyb := List.find?_some hp
    have hkey : p.1 = nm := of_decide_eq_true hkeyb
    rw [← hpe, h p hmem, hkey]
  | none =>
    show dictGetD (dictSet st.1 nm (entityIdOf deal_id nm)) nm "" = _
    rw [dictGetD_dictSet_self]

theorem buildStep_name_inv (deal_id : String)
    (st : List (String × String) × List Entity × List (String × String)) (tx : Tx)
    (h : ∀ p ∈ st.1, p.2 = entityIdOf deal_id p.1) :
    ∀ p ∈ (buildEntitiesStep deal_id st tx).1, p.2 = entityIdOf deal_id p.1 :=
  buildStepGo_name_inv deal_id st tx _ _ h

theorem buildStep_tem (deal_id : String)
    (st : List (String × String) × List Entity × List (String × String)) (tx : Tx)
    (h : ∀ p ∈ st.1, p.2 = entityIdOf deal_id p.1) :
    (buildEntitiesStep deal_id st tx).2.2 =
      dictSet st.2.2 tx.txn_id
        (entityIdOf deal_id (normalize_descriptor tx.normalized_descriptor)) := by
  unfold buildEntitiesStep
  dsimp only
  rw [buildStepGo_tem, buildStepGo_name_lookup deal_id st tx _ h]

theorem build_fold_name_inv (deal_id : String) :
    ∀ (l : List Tx) (st : List (String × String) × List Entity × List (String × String)),
      (∀ p ∈ st.1, p.2 = entityIdOf deal_id p.1) →
      ∀ p ∈ (l.foldl (buildEntitiesStep deal_id) st).1, p.2 = entityIdOf deal_id p.1 := by
  intro l
  induction l with
  | nil => intro st h; exact h
  | cons x t ih =>
    intro st h
    rw [List.foldl_cons]
    exact ih _ (buildStep_name_inv deal_id st x h)

theorem build_fold_tem_stable (deal_id : String) :
    ∀ (l : List Tx) (st : List (String × String) × List Entity × List (String × String))
      (k : String),
      (∀ p ∈ st.1, p.2 = entityIdOf deal_id p.1) →
      (∀ u ∈ l, u.txn_id ≠ k) →
      dictGetD (l.foldl (buildEntitiesStep deal_id) st).2.2 k "" =
        dictGetD st.2.2 k "" := by
  intro l
  induction l with
  | nil => intro st k _ _; rfl
  | cons x t ih =>
    intro st k hinv hne
    rw [List.foldl_cons]
    rw [ih _ k (buildStep_name_inv deal_id st x hinv)
      (fun u hu => hne u (List.mem_cons_of_mem _ hu))]
    rw [buildStep_tem deal_id st x hinv]
    exact dictGetD_dictSet_ne _ _ _ _ _ (fun h => hne x (List.mem_cons_self _ _) h.symm)

theorem build_fold_tem_lookup (deal_id : String) :
    ∀ (l : List Tx) (st : List (String × String) × List Entity × List (String × String))
      (k nd : String),
      (∀ p ∈ st.1, p.2 = entityIdOf deal_id p.1) →
      (∀ u ∈ l, u.txn_id = k → normalize_descriptor u.normalized_descriptor = nd) →
      (∃ u ∈ l, u.txn_id = k) →
      dictGetD (l.foldl (buildEntitiesStep deal_id) st).2.2 k "" =
        entityIdOf deal_id nd := by
  intro l
  induction l with
  | nil =>
    intro st k nd _ _ hex
    obtain ⟨u, hu, _⟩ := hex
    exact absurd hu (List.not_mem_nil u)
  | cons x t ih =>
    intro st k nd hinv hnd hex
    rw [List.foldl_cons]
    by_cases hext : ∃ u ∈ t, u.txn_id = k
    · exact ih _ k nd (buildStep_name_inv deal_id st x hinv)
        (fun u hu => hnd u (List.mem_cons_of_mem _ hu)) hext
    · have hxk : x.txn_id = k := by
        obtain ⟨u, hu, huk⟩ := hex
        rcases List.mem_cons.mp hu with heq | hut
        · rw [← heq]; exact huk
        · exact absurd ⟨u, hut, huk⟩ hext
      have hstable : ∀ u ∈ t, u.txn_id ≠ k := by
        intro u hu huk
        exact hext ⟨u, hu, huk⟩
      rw [build_fold_tem_stable deal_id t _ k (buildStep_name_inv deal_id st x hinv) hstable]
      rw [buildStep_tem deal_id st x hinv, hxk, dictGetD_dictSet_self]
      rw [hnd x (List.mem_cons_self _ _) hxk]

theorem flagFun_txn_id (l : List Tx) (t : Tx) :
    ((fun t : Tx => if (matchedPairs l).any (fun pr => pr.1 = t || pr.2 = t) then
      { t with is_transfer := true } else t) t).txn_id = t.txn_id := by
  dsimp only
  split <;> rfl

theorem flagFun_nd (l : List Tx) (t : Tx) :
    ((fun t : Tx => if (matchedPairs l).any (fun pr => pr.1 = t || pr.2 = t) then
      { t with is_transfer := true } else t) t).normalized_descriptor =
      t.normalized_descriptor := by
  dsimp only
  split <;> rfl

theorem match_transfers_fst (l : List Tx) :
    (match_transfers l).1 = l.map (fun t =>
      if (matchedPairs l).any (fun pr => pr.1 = t || pr.2 = t) then
        { t with is_transfer := true } else t) := rfl

theorem pipeline_ev_lookup (deal_id : String) (l : List Tx)
    (hinj : ∀ x ∈ l, ∀ y ∈ l, x.txn_id = y.txn_id → x = y) (k : String) :
    dictGetD (entityValues (build_entities deal_id (match_transfers l).1).2.1
      (classifyAll (match_transfers l).1)) k 0 =
    (((classifyAll (match_transfers l).1).filter fun t =>
        entityIdOf deal_id (normalize_descriptor t.normalized_descriptor) = k).map
      fun t => |t.signed_amount_cents|).sum := by
  unfold entityValues
  rw [entityValues_lookup]
  have hzero : dictGetD ([] : List (String × Int)) k 0 = 0 := rfl
  rw [hzero, zero_add]
  have hpt : ∀ x ∈ classifyAll (match_transfers l).1,
      (decide (dictGetD (build_entities deal_id (match_transfers l).1).2.1 x.txn_id "" = k)
        : Bool) =
      (decide (entityIdOf deal_id (normalize_descriptor x.normalized_descriptor) = k)
        : Bool) := by
    intro x hx
    obtain ⟨u, hu, hux⟩ := List.mem_map.mp hx
    have hxu_id : x.txn_id = u.txn_id := by rw [← hux]
    have hxu_nd : x.normalized_descriptor = u.normalized_descriptor := by rw [← hux]
    obtain ⟨a, ha, hau⟩ := List.mem_map.mp (by rw [match_transfers_fst] at hu; exact hu)
    have hua_id : u.txn_id = a.txn_id := by rw [← hau]; exact flagFun_txn_id l a
    have hua_nd : u.normalized_descriptor = a.normalized_descriptor := by
      rw [← hau]; exact flagFun_nd l a
    have htem : (build_entities deal_id (match_transfers l).1).2.1 =
        ((match_transfers l).1.foldl (buildEntitiesStep deal_id) ([], [], [])).2.2 := rfl
    have hlook : dictGetD (build_entities deal_id (match_transfers l).1).2.1 x.txn_id "" =
        entityIdOf deal_id (normalize_descriptor x.normalized_descriptor) := by
      rw [htem]
      apply build_fold_tem_lookup deal_id (match_transfers l).1 ([], [], [])
        x.txn_id (normalize_descriptor x.normalized_descriptor)
        (fun p hp => absurd hp (List.not_mem_nil p))
      · intro v hv hvk
        obtain ⟨b, hb, hbv⟩ := List.mem_map.mp (by rw [match_transfers_fst] at hv; exact hv)
        have hvb_id : v.txn_id = b.txn_id := by rw [← hbv]; exact flagFun_txn_id l b
        have hvb_nd : v.normalized_descriptor = b.normalized_descriptor := by
          rw [← hbv]; exact flagFun_nd l b
        have hba : b = a := hinj b hb a ha (by rw [← hvb_id, hvk, hxu_id, hua_id])
        rw [hvb_nd, hba, hxu_nd, hua_nd]
      · exact ⟨u, hu, hxu_id.symm⟩
    rw [hlook]
  exact congrArg (fun L => (L.map fun t => |t.signed_amount_cents|).sum)
    (List.filter_congr hpt)

/-- C2 (amended): for every list of canonical transaction rows in which no
two distinct rows share a `txn_id`, running the pipeline on any
permutation of the list yields the same `raw_transaction_hash` and the
same `final_confidence_bp`. -/
theorem claim_C2_amended :
    ∀ (deal_id : String) (overrides : List Override) (accrual : Accrual) (u1 u2 : String)
      (txs txs' : List Tx),
      txs.Perm txs' →
      (∀ x ∈ txs, ∀ y ∈ txs, x.txn_id = y.txn_id → x = y) →
      (run_pipeline deal_id txs overrides accrual u1).1.raw_transaction_hash =
        (run_pipeline deal_id txs' overrides accrual u2).1.raw_transaction_hash ∧
      (run_pipeline deal_id txs overrides accrual u1).1.final_confidence_bp =
        (run_pipeline deal_id txs' overrides accrual u2).1.final_confidence_bp := by
  intro deal_id overrides accrual u1 u2 txs txs' hperm hinj
  have hinj' : ∀ x ∈ txs', ∀ y ∈ txs', x.txn_id = y.txn_id → x = y :=
    fun x hx y hy => hinj x (hperm.mem_iff.mpr hx) y (hperm.mem_iff.mpr hy)
  have hproc : (classifyAll (match_transfers txs).1).Perm
      (classifyAll (match_transfers txs').1) := processed_perm hperm
  have hmet : compute_metrics (classifyAll (match_transfers txs).1) accrual =
      compute_metrics (classifyAll (match_transfers txs').1) accrual :=
    compute_metrics_perm hproc accrual
  have hK : ∀ k,
      dictGetD (entityValues (build_entities deal_id (match_transfers txs).1).2.1
        (classifyAll (match_transfers txs).1)) k 0 =
      dictGetD (entityValues (build_entities deal_id (match_transfers txs').1).2.1
        (classifyAll (match_transfers txs').1)) k 0 := by
    intro k
    rw [pipeline_ev_lookup deal_id txs hinj k, pipeline_ev_lookup deal_id txs' hinj' k]
    exact ((hproc.filter _).map _).sum_eq
  have hpen : ∀ X : Int,
      compute_override_penalty_bp overrides
        (entityValues (build_entities deal_id (match_transfers txs).1).2.1
          (classifyAll (match_transfers txs).1)) X =
      compute_override_penalty_bp overrides
        (entityValues (build_entities deal_id (match_transfers txs').1).2.1
          (classifyAll (match_transfers txs').1)) X :=
    fun X => compute_override_penalty_congr overrides _ _ X hK
  constructor
  · show canonical_hash (List.insertionSort (fun a b : Tx => strLe a.txn_id b.txn_id = true)
        (classifyAll (match_transfers txs).1)) =
      canonical_hash (List.insertionSort (fun a b : Tx => strLe a.txn_id b.txn_id = true)
        (classifyAll (match_transfers txs').1))
    unfold canonical_hash
    exact processed_sort_eq hperm hinj
  · show (finalize_confidence
        (compute_metrics (classifyAll (match_transfers txs).1) accrual).base_after_months_bp
        (compute_override_penalty_bp overrides
          (entityValues (build_entities deal_id (match_transfers txs).1).2.1
            (classifyAll (match_transfers txs).1))
          ((compute_metrics (classifyAll (match_transfers txs).1)
            accrual).non_transfer_abs_total_cents : Int))
        (compute_metrics (classifyAll (match_transfers txs).1)
          accrual).reconciliation_status).final_confidence_bp =
      (finalize_confidence
        (compute_metrics (classifyAll (match_transfers txs').1) accrual).base_after_months_bp
        (compute_override_penalty_bp overrides
          (entityValues (build_entities deal_id (match_transfers txs').1).2.1
            (classifyAll (match_transfers txs').1))
          ((compute_metrics (classifyAll (match_transfers txs').1)
            accrual).non_transfer_abs_total_cents : Int))
        (compute_metrics (classifyAll (match_transfers txs').1)
          accrual).reconciliation_status).final_confidence_bp
    rw [hmet, hpen]

/-- C2 witness: the amended invariance at a concrete two-row list with
distinct `txn_id`s and its swap. -/
theorem claim_C2_witness :
    (run_pipeline "d1" [txW1, txW2] [] accrualAbsent "u1").1.raw_transaction_hash =
      (run_pipeline "d1" [txW2, txW1] [] accrualAbsent "u2").1.raw_transaction_hash ∧
    (run_pipeline "d1" [txW1, txW2] [] accrualAbsent "u1").1.final_confidence_bp =
      (run_pipeline "d1" [txW2, txW1] [] accrualAbsent "u2").1.final_confidence_bp :=
  claim_C2_amended "d1" [] accrualAbsent "u1" "u2" [txW1, txW2] [txW2, txW1]
    (by decide) (by decide)
